import Mathlib

/-!
Verification development for the Volta dashboard's filter-and-aggregation
engine (`volta/utils/filter_params.py`, `volta/services/datastore.py`,
`volta/routes/dashboard/aggregates.py`, `volta/routes/dashboard/helpers.py`).

Tables are modelled positionally: a header of named, dtyped columns and rows
of cells aligned with the header.  Cell values are modelled exactly as the
code distinguishes them: raw strings, numbers (exact integers stand in for
pandas numerics; floating-point rounding is out of scope), timestamps
(seconds, so that a calendar date corresponds to a multiple of 86400), and
the missing marker (NaN/NaT/NULL).  Calendar rendering of a date to its ISO
string is abstracted to an injective numeral encoding, since only
injectivity of the rendering matters to the properties below.
-/

namespace Volta

/-- A cell of a pandas/DuckDB table: string, numeric, timestamp (seconds
since the epoch), or missing (NaN/NaT/NULL). -/
inductive Cell where
  | s (v : String)
  | n (v : Int)
  | t (v : Int)
  | na
  deriving DecidableEq, Repr

/-- Column dtypes as far as the code inspects them (`is_datetime64_any_dtype`,
numeric coercion targets, everything else object). -/
inductive Dtype where
  | obj
  | num
  | dt
  deriving DecidableEq, Repr

abbrev Row := List Cell

/-- A dataframe / DuckDB table: named dtyped columns and positionally
aligned rows. -/
structure Table where
  header : List (String × Dtype)
  rows : List Row
  deriving DecidableEq, Repr

namespace Table

def colNames (t : Table) : List String := t.header.map Prod.fst

/-- Well-formedness: every row has one cell per header column. -/
def WF (t : Table) : Prop := ∀ r ∈ t.rows, r.length = t.header.length

instance (t : Table) : Decidable t.WF := by
  unfold WF; infer_instance

/-- Index of a column name in the header (first match), as pandas column
lookup does. -/
def colIdx (t : Table) (c : String) : Option Nat :=
  t.header.findIdx? (fun p => p.1 = c)

/-- The empty dataframe `pd.DataFrame()`: zero rows, zero columns. -/
def empty : Table := ⟨[], []⟩

end Table

/-- Cell of row `r` in column `c` of a table with header `t.header`
(missing column or ragged row reads as missing). -/
def cellAt (t : Table) (r : Row) (c : String) : Cell :=
  match t.colIdx c with
  | some i => r.getD i Cell.na
  | none => Cell.na

/-- `astype(str)` on a cell, as pandas renders scalars: strings unchanged,
numbers by their numeral, timestamps with a time-of-day part, NaN as
"nan".  The timestamp/date renderings are injective stand-ins for the
library's calendar formatting. -/
def Cell.strcast : Cell → String
  | .s v => v
  | .n v => toString v
  | .t v => "ts " ++ toString v
  | .na => "nan"

/-- `CAST(x AS VARCHAR)` in DuckDB on a non-NULL cell: strings and numbers
render as in pandas, but a DATE renders without a time-of-day part (so it
differs from `Cell.strcast` on timestamps). -/
def Cell.sqlVarchar : Cell → String
  | .s v => v
  | .n v => toString v
  | .t v => "d " ++ toString (v / 86400)
  | .na => "nan"

/-- Keep the rows satisfying a predicate (`df[mask]`); the header is
unchanged. -/
def Table.filterRows (t : Table) (p : Row → Bool) : Table :=
  ⟨t.header, t.rows.filter p⟩

/-- `volta/utils/filter_params.py` — `FilterParams`: an immutable filter
value.  Dates are calendar days (day index; `dateIso` renders one), the
selections mapping is an insertion-ordered dict. -/
structure FilterParams where
  start : Option Nat := none
  end_ : Option Nat := none
  selections : List (String × List String) := []
  freq : String := "D"
  metric : Option String := none
  deriving DecidableEq, Repr

/-- ISO rendering of a calendar day (`date.isoformat()`), abstracted to an
injective numeral encoding of the day index. -/
def dateIso (d : Nat) : String := toString d

/-- The `normalized` dict built identically in `FilterParams.apply` and
`FilterParams.to_sql_where`: entries whose original value list is empty are
dropped, and empty-string values are dropped from the kept lists. -/
def normalizeSelections (sel : List (String × List String)) :
    List (String × List String) :=
  (sel.filter (fun cv => !cv.2.isEmpty)).map
    (fun cv => (cv.1, cv.2.filter (fun v => v ≠ "")))

/-- `out[date_col] >= pd.Timestamp(start)` on one cell of a datetime
column: a timestamp compares numerically (the bound is the date at
midnight), NaT compares false. -/
def pdDateGe (c : Cell) (d : Nat) : Bool :=
  match c with
  | .t v => decide ((d * 86400 : Int) ≤ v)
  | _ => false

/-- `out[date_col] <= pd.Timestamp(end)` on one cell (see `pdDateGe`). -/
def pdDateLe (c : Cell) (d : Nat) : Bool :=
  match c with
  | .t v => decide (v ≤ (d * 86400 : Int))
  | _ => false

/-- The body of the selections loop in `FilterParams.apply`: one
categorical filter, applied only when the column exists and the normalized
value list is non-empty (`if col in out.columns and vals`). -/
def selStep (out : Table) (cv : String × List String) : Table :=
  if cv.1 ∈ out.colNames ∧ !cv.2.isEmpty then
    out.filterRows (fun r => cv.2.contains (cellAt out r cv.1).strcast)
  else out

/-- `FilterParams.apply` (filter_params.py, pandas path): AND of all
categorical selections present in the columns, then the inclusive date
range when the date column is present. -/
def FilterParams.apply (fp : FilterParams) (t : Table) (dateCol : String) :
    Table :=
  let out := (normalizeSelections fp.selections).foldl selStep t
  if dateCol ∈ out.colNames then
    let out2 :=
      match fp.start with
      | some s => out.filterRows (fun r => pdDateGe (cellAt out r dateCol) s)
      | none => out
    match fp.end_ with
    | some e => out2.filterRows (fun r => pdDateLe (cellAt out2 r dateCol) e)
    | none => out2
  else out

/-- One conjunct of the generated WHERE clause, in the shape
`to_sql_where` emits it (bound values carried alongside; rendering and the
flat parameter list are recovered by `renderClause` / `clauseParams`). -/
inductive SqlClause where
  | between (col : String) (lo hi : Nat)
  | dge (col : String) (d : Nat)
  | dle (col : String) (d : Nat)
  | inlist (col : String) (vals : List String)
  deriving DecidableEq, Repr

/-- The clause text `to_sql_where` appends for one conjunct. -/
def renderClause : SqlClause → String
  | .between c _ _ => "CAST(" ++ c ++ " AS DATE) BETWEEN ? AND ?"
  | .dge c _ => "CAST(" ++ c ++ " AS DATE) >= ?"
  | .dle c _ => "CAST(" ++ c ++ " AS DATE) <= ?"
  | .inlist c vs =>
      "CAST(" ++ c ++ " AS VARCHAR) IN ("
        ++ String.intercalate "," (vs.map (fun _ => "?")) ++ ")"

/-- The parameters `to_sql_where` appends for one conjunct. -/
def clauseParams : SqlClause → List String
  | .between _ lo hi => [dateIso lo, dateIso hi]
  | .dge _ d => [dateIso d]
  | .dle _ d => [dateIso d]
  | .inlist _ vs => vs

/-- The date-range conjuncts of `to_sql_where`: BETWEEN when both bounds
are set, one-sided comparison otherwise, nothing when neither is set. -/
def dateClauses (fp : FilterParams) (dateCol : String) : List SqlClause :=
  match fp.start, fp.end_ with
  | some s, some e => [.between dateCol s e]
  | some s, none => [.dge dateCol s]
  | none, some e => [.dle dateCol e]
  | none, none => []

/-- One loop iteration of the categorical part of `to_sql_where`: skip an
empty normalized value list (`if not vals: continue`), skip a column
outside the available set when one is given, otherwise emit the IN-list
conjunct. -/
def selClauseOf (avail : Option (List String))
    (cv : String × List String) : Option SqlClause :=
  if cv.2.isEmpty then none
  else
    match avail with
    | some cols =>
        if cv.1 ∈ cols then some (.inlist cv.1 cv.2) else none
    | none => some (.inlist cv.1 cv.2)

/-- The categorical conjuncts of `to_sql_where`: one IN-list per normalized
selection, skipping empty value lists and — when an available-column set is
given — columns outside it. -/
def selClauses (fp : FilterParams) (avail : Option (List String)) :
    List SqlClause :=
  (normalizeSelections fp.selections).filterMap (selClauseOf avail)

/-- The conjunct list `FilterParams.to_sql_where` builds: the date range
first, then the categorical selections in order. -/
def whereClauses (fp : FilterParams) (dateCol : String)
    (avail : Option (List String)) : List SqlClause :=
  dateClauses fp dateCol ++ selClauses fp avail

/-- `FilterParams.to_sql_where`: the rendered clause string (a `1=1`
tautology when no conjunct applies) and the flat parameter list. -/
def FilterParams.to_sql_where (fp : FilterParams) (dateCol : String)
    (avail : Option (List String)) : String × List String :=
  (if (whereClauses fp dateCol avail).isEmpty then "1=1"
   else String.intercalate " AND "
     ((whereClauses fp dateCol avail).map renderClause),
   (whereClauses fp dateCol avail).flatMap clauseParams)

/-- `CAST(cell AS DATE)` in DuckDB: a timestamp truncates to its calendar
day, NULL (and cells no datetime column holds) yield no date. -/
def sqlDate (c : Cell) : Option Int :=
  match c with
  | .t v => some (v / 86400)
  | _ => none

/-- Truth of one WHERE conjunct at one row, under DuckDB semantics with
the corresponding parameters bound: NULL comparisons and NULL IN-list
membership are not true. -/
def evalClause (t : Table) (r : Row) : SqlClause → Bool
  | .between c lo hi =>
      match sqlDate (cellAt t r c) with
      | some d => decide ((lo : Int) ≤ d ∧ d ≤ (hi : Int))
      | none => false
  | .dge c x =>
      match sqlDate (cellAt t r c) with
      | some d => decide ((x : Int) ≤ d)
      | none => false
  | .dle c x =>
      match sqlDate (cellAt t r c) with
      | some d => decide (d ≤ (x : Int))
      | none => false
  | .inlist c vs =>
      match cellAt t r c with
      | .na => false
      | cell => vs.contains cell.sqlVarchar

/-- Rows of `t` selected by `SELECT * FROM t WHERE <clauses>` in the
embedded engine. -/
def sqlSelect (cs : List SqlClause) (t : Table) : Table :=
  t.filterRows (fun r => cs.all (evalClause t r))

/-- The per-selection row predicate `FilterParams.apply` effectively
conjoins: a selection filters only when its column exists and its
normalized value list is non-empty. -/
def selPred (t : Table) (cv : String × List String) (r : Row) : Bool :=
  if cv.1 ∈ t.colNames ∧ !cv.2.isEmpty then
    cv.2.contains (cellAt t r cv.1).strcast
  else true

/-- The date-range row predicate `FilterParams.apply` effectively
conjoins. -/
def datePred (fp : FilterParams) (t : Table) (dateCol : String) (r : Row) :
    Bool :=
  if dateCol ∈ t.colNames then
    (match fp.start with
     | some s => pdDateGe (cellAt t r dateCol) s
     | none => true)
      && (match fp.end_ with
          | some e => pdDateLe (cellAt t r dateCol) e
          | none => true)
  else true

/-- A cell a datetime column may hold whose value is a pure calendar date:
a timestamp at midnight on some day, or missing. -/
def Cell.isPureDate : Cell → Bool
  | .t v => v % 86400 == 0
  | .na => true
  | _ => false

/-- A cell that is a plain string or number, whose pandas `astype(str)`
and DuckDB `CAST(· AS VARCHAR)` renderings agree. -/
def Cell.isStrOrNum : Cell → Bool
  | .s _ => true
  | .n _ => true
  | _ => false

/-- Number of `?` parameter placeholders occurring in a clause string. -/
def countQ (s : String) : Nat := s.toList.count '?'

/-- The column name a WHERE conjunct interpolates into its clause text. -/
def colOf : SqlClause → String
  | .between c _ _ => c
  | .dge c _ => c
  | .dle c _ => c
  | .inlist c _ => c

/-- The configuration slice `DataStore` reads (`RES_MAP`, `DATE_COL`, the
metric registry's keys — `Metrics.mapping.keys()`). -/
structure Cfg where
  resMap : List (String × String)
  dateCol : String
  metricKeys : List String
  deriving DecidableEq, Repr

/-- The concrete `volta.config.Config` values. -/
def defaultCfg : Cfg :=
  ⟨[("N-Resid [0]", "Commercial"), ("Resid [1]", "Residential")],
   "chargedate", ["kwh", "paymoney", "ghc"]⟩

/-- Keep the elements not seen before (`seen` accumulates those kept). -/
def dedupFirstAux {α : Type} [DecidableEq α] : List α → List α → List α
  | [], _ => []
  | a :: as, seen =>
      if a ∈ seen then dedupFirstAux as seen
      else a :: dedupFirstAux as (a :: seen)

/-- `drop_duplicates()`: keep the first occurrence of each row. -/
def dedupFirst {α : Type} [DecidableEq α] (l : List α) : List α :=
  dedupFirstAux l []

/-- `df.drop_duplicates().reset_index(drop=True)`. -/
def Table.dedupRows (t : Table) : Table := ⟨t.header, dedupFirst t.rows⟩

/-- `DataStore._clean_nan_rows`: `df.dropna(how="any").reset_index(...)` —
drop every row containing a missing value. -/
def _clean_nan_rows (t : Table) : Table :=
  t.filterRows (fun r => !(r.contains Cell.na))

/-- In-place transformation of one column (`df[c] = f(df[c])`), setting
its dtype; a missing column leaves the table unchanged. -/
def Table.mapCol (t : Table) (c : String) (f : Cell → Cell) (dty : Dtype) :
    Table :=
  match t.colIdx c with
  | none => t
  | some i =>
      ⟨t.header.set i (c, dty),
       t.rows.map (fun r => r.set i (f (r.getD i Cell.na)))⟩

/-- `df[c] = <series computed from each row>`: replace the column in place
when present, else append it (pandas column assignment). -/
def Table.setColF (t : Table) (c : String) (g : Row → Cell) : Table :=
  match t.colIdx c with
  | some i => ⟨t.header.set i (c, Dtype.obj), t.rows.map (fun r => r.set i (g r))⟩
  | none => ⟨t.header ++ [(c, Dtype.obj)], t.rows.map (fun r => r ++ [g r])⟩

/-- Dtype of a named column (`df[c].dtype`), first match. -/
def Table.dtypeOf (t : Table) (c : String) : Option Dtype :=
  (t.header.find? (fun p => p.1 = c)).map Prod.snd

/-- Month abbreviations of the `%b` directive. -/
def monthAbbrevs : List String :=
  ["Jan", "Feb", "Mar", "Apr", "May", "Jun",
   "Jul", "Aug", "Sep", "Oct", "Nov", "Dec"]

/-- Injective day-index encoding of a calendar date (calendar arithmetic
abstracted; only injectivity of the encoding matters here). -/
def ymdCode (y m d : Nat) : Nat := (y * 12 + m) * 31 + (d - 1)

/-- Split a character list on a separator character. -/
def splitOnChar (sep : Char) : List Char → List (List Char)
  | [] => [[]]
  | c :: cs =>
      let rest := splitOnChar sep cs
      if c = sep then [] :: rest
      else
        match rest with
        | g :: gs => (c :: g) :: gs
        | [] => [[c]]

/-- Accumulate a decimal numeral; any non-digit rejects. -/
def digitsToNatAux : List Char → Nat → Option Nat
  | [], acc => some acc
  | c :: cs, acc =>
      if c.isDigit then digitsToNatAux cs (acc * 10 + (c.toNat - 48))
      else none

/-- Parse a non-empty all-digit numeral. -/
def digitsToNat (cs : List Char) : Option Nat :=
  match cs with
  | [] => none
  | _ => digitsToNatAux cs 0

/-- Parse an optionally-signed integer numeral. -/
def intOfChars (cs : List Char) : Option Int :=
  match cs with
  | c :: rest =>
      if c = Char.ofNat 45 then (digitsToNat rest).map (fun n => -(n : Int))
      else (digitsToNat cs).map (fun n => (n : Int))
  | [] => none

/-- `strptime(s, "%d-%b-%y")` (e.g. "05-Jan-24"), returning the day index
of the parsed date, or nothing when the string does not match. -/
def parseDMonY (s : String) : Option Nat :=
  match splitOnChar (Char.ofNat 45) s.toList with
  | [ds, ms, ys] =>
      match digitsToNat ds, monthAbbrevs.findIdx? (fun a => a.toList = ms),
          digitsToNat ys with
      | some d, some m, some y =>
          if 1 ≤ d ∧ d ≤ 31 ∧ ds.length ≤ 2 ∧ ys.length = 2 then
            some (ymdCode (2000 + y) m d)
          else none
      | _, _, _ => none
  | _ => none

/-- `pd.to_datetime(·, errors="coerce", format="%d-%b-%y")` on one cell:
matching strings become the date's midnight timestamp, everything
unparsable becomes NaT; existing timestamps pass through. -/
def parseDateCell (c : Cell) : Cell :=
  match c with
  | .s v =>
      match parseDMonY v with
      | some d => .t ((d : Int) * 86400)
      | none => .na
  | .n _ => .na
  | .t v => .t v
  | .na => .na

/-- `pd.to_numeric(·, errors="coerce")` on one cell: numbers pass through,
numeral strings parse (exact integers stand in for pandas numerics),
everything else becomes missing. -/
def toNumCell (c : Cell) : Cell :=
  match c with
  | .n v => .n v
  | .s v =>
      match intOfChars v.toList with
      | some n => .n n
      | none => .na
  | .t _ => .na
  | .na => .na

/-- The body of the numeric-coercion loop of `_preprocess` over
`metrics.mapping.keys()`. -/
def numStep (acc : Table) (k : String) : Table :=
  if k ∈ acc.colNames then acc.mapCol k toNumCell Dtype.num else acc

/-- `DataStore._preprocess`: drop duplicate rows, drop rows with missing
values, derive `res_mapped` from `res` through `RES_MAP` (unmapped codes
become "Unknown"), parse the date column when it is not already datetime,
and coerce every present metric column to numeric. -/
def _preprocess (cfg : Cfg) (t : Table) : Table :=
  let t2 := _clean_nan_rows t.dedupRows
  let t3 :=
    if "res" ∈ t2.colNames ∧ cfg.resMap ≠ [] then
      t2.setColF "res_mapped"
        (fun r =>
          Cell.s ((cfg.resMap.lookup (cellAt t2 r "res").strcast).getD
            "Unknown"))
    else t2
  let t4 :=
    if cfg.dateCol ≠ "" ∧ cfg.dateCol ∈ t3.colNames
        ∧ ¬ t3.dtypeOf cfg.dateCol = some Dtype.dt then
      t3.mapCol cfg.dateCol parseDateCell Dtype.dt
    else t3
  cfg.metricKeys.foldl numStep t4

/-- The summary mapping `DataStore.compute_summary` returns. -/
structure Summary where
  rows : Nat
  cols : Nat
  meters : Option Nat
  locations : Option Nat
  date_min : String
  date_max : String
  deriving DecidableEq, Repr

/-- The cells of one named column, in row order. -/
def Table.colCells (t : Table) (c : String) : List Cell :=
  t.rows.map (fun r => cellAt t r c)

/-- `Series.nunique()`: number of distinct non-missing values. -/
def nunique (cells : List Cell) : Nat :=
  (dedupFirst (cells.filter (fun c => c ≠ Cell.na))).length

/-- `pd.to_datetime(·, errors="coerce")` without a format (permissive) on
one cell; the permissive string grammar is abstracted to the same date
grammar as the strict parser. -/
def toDatetimePermissive (c : Cell) : Cell :=
  match c with
  | .t v => .t v
  | .s v =>
      match parseDMonY v with
      | some d => .t ((d : Int) * 86400)
      | none => .na
  | .n _ => .na
  | .na => .na

/-- `Timestamp.date().isoformat()` of a timestamp value. -/
def dateIsoOfTs (v : Int) : String := dateIso (v / 86400).toNat

/-- `DataStore.compute_summary`: row/column counts, distinct meter and
location counts when those columns exist, and ISO date bounds — empty
strings when the table is empty or no date parses. -/
def compute_summary (cfg : Cfg) (t : Table) : Summary :=
  let base : Summary :=
    { rows := t.rows.length
      cols := t.header.length
      meters :=
        if "meterid" ∈ t.colNames then some (nunique (t.colCells "meterid"))
        else none
      locations :=
        if "loc" ∈ t.colNames then some (nunique (t.colCells "loc"))
        else none
      date_min := ""
      date_max := "" }
  if cfg.dateCol ≠ "" ∧ cfg.dateCol ∈ t.colNames ∧ 0 < t.rows.length then
    match (t.colCells cfg.dateCol).filterMap
        (fun c =>
          match toDatetimePermissive c with
          | .t v => some v
          | _ => none) with
    | [] => base
    | v :: vs =>
        { base with
          date_min := dateIsoOfTs (vs.foldl min v)
          date_max := dateIsoOfTs (vs.foldl max v) }
  else base

/-- The environment `DataStore.load` runs in: the in-memory cache
(`self._df`), whether `prod.sales` exists, what `SELECT * FROM prod.sales`
yields (`none` = the load raised), the configured remote URL, what the
remote fetch yields (`none` = a caught network/HTTP error), and the local
CSV situation (`CSV_GLOB` matches, what `rebuild_from_csv` would build). -/
structure LoadEnv where
  cfg : Cfg
  cachedDf : Option Table
  tableExists : Bool
  duckTable : Option Table
  bucketUrl : Option String
  remoteFetch : Option Table
  csvFiles : List String
  csvTable : Table
  deriving Repr

/-- `DataStore.load`: return the cached frame if set; else load the
embedded table and preprocess it; else, when a remote URL is configured,
fetch and install it (`set_df` preprocesses); else cache nothing and
return the empty dataframe.  The first component is the new `self._df`,
the second the returned frame.  No branch consults the CSV fallback. -/
def load (env : LoadEnv) : Option Table × Table :=
  match env.cachedDf with
  | some df => (some df, df)
  | none =>
      match (if env.tableExists then env.duckTable else none) with
      | some raw =>
          (some (_preprocess env.cfg raw), _preprocess env.cfg raw)
      | none =>
          match env.bucketUrl with
          | some _ =>
              match env.remoteFetch with
              | some raw =>
                  (some (_preprocess env.cfg raw), _preprocess env.cfg raw)
              | none => (none, Table.empty)
          | none => (none, Table.empty)

/-- `DataStore.get`: the frame `load` returns (the copy flag does not
change its contents). -/
def get (env : LoadEnv) : Table := (load env).2

/-- The `res_mapped` column is present, object-typed, and holds exactly
the value `_preprocess` derives from `res` for every row. -/
def resMappedConsistent (cfg : Cfg) (t : Table) : Bool :=
  match t.colIdx "res_mapped" with
  | some j =>
      (t.header.get? j == some ("res_mapped", Dtype.obj))
        && t.rows.all (fun r =>
          r.get? j
            == some (Cell.s ((cfg.resMap.lookup
                (cellAt t r "res").strcast).getD "Unknown")))
  | none => false

/-- Every metric column present in the table is numeric-typed and all its
cells are fixed points of the numeric coercion. -/
def metricColsNormal (cfg : Cfg) (t : Table) : Bool :=
  cfg.metricKeys.all (fun k =>
    match t.colIdx k with
    | some i =>
        (t.header.get? i == some (k, Dtype.num))
          && t.rows.all (fun r =>
            match r.get? i with
            | some cell => toNumCell cell == cell
            | none => false)
    | none => true)

/-- The series `pie_data` aggregates: per row, the string-cast segment
value paired with the numeric metric value, after dropping rows with a
missing segment, coercing the metric to numeric, and dropping rows whose
metric is then missing. -/
def extractPairs (t : Table) (segCol metricCol : String) :
    List (String × Int) :=
  t.rows.filterMap (fun r =>
    match cellAt t r segCol, toNumCell (cellAt t r metricCol) with
    | Cell.na, _ => none
    | seg, Cell.n v => some (seg.strcast, v)
    | _, _ => none)

/-- The values of one group. -/
def sumFor (pairs : List (String × Int)) (k : String) : Int :=
  (pairs.filterMap (fun p => if p.1 = k then some p.2 else none)).sum

/-- `groupby(segment.astype(str))[metric].sum()`: one (key, sum) entry per
distinct key, keys in groupby's ascending order. -/
def groupSum (pairs : List (String × Int)) : List (String × Int) :=
  (List.insertionSort (fun a b => a ≤ b)
      (dedupFirst (pairs.map Prod.fst))).map
    (fun k => (k, sumFor pairs k))

/-- `.sort_values(ascending=False)` on the grouped sums (a deterministic
sort; pandas does not guarantee a tie order). -/
def sortDesc (l : List (String × Int)) : List (String × Int) :=
  List.insertionSort (fun a b => b.2 ≤ a.2) l

/-- The top-N folding of `pie_data` (aggregates.py): group, sort
descending, and when more than `n` groups exist keep the top `n` and fold
the rest into a synthetic "Other" entry holding their sum. -/
def pieTopN (t : Table) (segCol metricCol : String) (n : Nat) :
    List (String × Int) :=
  let grp := sortDesc (groupSum (extractPairs t segCol metricCol))
  if n < grp.length then
    grp.take n ++ [("Other", ((grp.drop n).map Prod.snd).sum)]
  else grp

/-- ASCII lowercase of one character (`str.lower()` on the column-name
alphabet). -/
def charLower (c : Char) : Char :=
  if 65 ≤ c.toNat ∧ c.toNat ≤ 90 then Char.ofNat (c.toNat + 32) else c

/-- `str.lower()` (ASCII). -/
def strLower (s : String) : String := ⟨s.data.map charLower⟩

/-- ASCII uppercase of one character (`str.upper()`). -/
def charUpper (c : Char) : Char :=
  if 97 ≤ c.toNat ∧ c.toNat ≤ 122 then Char.ofNat (c.toNat - 32) else c

/-- `str.upper()` (ASCII). -/
def strUpper (s : String) : String := ⟨s.data.map charUpper⟩

/-- A request's multi-valued argument mapping (werkzeug MultiDict): keys
in insertion order, each listed once with its value list. -/
structure Args where
  entries : List (String × List String)
  deriving DecidableEq, Repr

/-- `args.getlist(k)`: the values of `k`, `[]` when absent (exact,
case-sensitive key lookup). -/
def Args.getlist (a : Args) (k : String) : List String :=
  ((a.entries.find? (fun e => e.1 = k)).map Prod.snd).getD []

/-- `args.get(k)`: the first value of `k`, if any. -/
def Args.get (a : Args) (k : String) : Option String :=
  (a.getlist k).head?

/-- `args.keys()`, in insertion order. -/
def Args.keys (a : Args) : List String := a.entries.map Prod.fst

/-- Python dict assignment `d[k] = v`: replace in place when the key is
present, else append. -/
def dictSet (d : List (String × List String)) (k : String)
    (v : List String) : List (String × List String) :=
  if d.any (fun e => e.1 = k) then
    d.map (fun e => if e.1 = k then (k, v) else e)
  else d ++ [(k, v)]

/-- `strptime(s, "%Y-%m-%d")`, the strict primary date format of
`_parse_date`, returning the day index. -/
def parseIsoDate (s : String) : Option Nat :=
  match splitOnChar (Char.ofNat 45) s.toList with
  | [ys, ms, ds] =>
      match digitsToNat ys, digitsToNat ms, digitsToNat ds with
      | some y, some m, some d =>
          if ys.length = 4 ∧ 1 ≤ m ∧ m ≤ 12 ∧ 1 ≤ d ∧ d ≤ 31 then
            some (ymdCode y (m - 1) d)
          else none
      | _, _, _ => none
  | _ => none

/-- `_parse_date` (dashboard/helpers.py): empty input gives no bound; the
strict ISO format is tried first, then the permissive
`pd.to_datetime(errors="coerce")` fallback (its permissive grammar
abstracted to the source date format). -/
def _parse_date (s : String) : Option Nat :=
  if s = "" then none
  else
    match parseIsoDate s with
    | some d => some d
    | none => parseDMonY s

/-- The values the first loop of `build_params` picks for a column: the
exact key's values, else the lowercase key's values
(`[str(v) for v in values]` is the identity on strings). -/
def pick1 (args : Args) (c : String) : List String :=
  let values := args.getlist c
  if values.isEmpty then args.getlist (strLower c) else values

/-- One iteration of the first `build_params` loop (over the dataset's
columns). -/
def step1 (args : Args) (excl : List String)
    (sel : List (String × List String)) (c : String) :
    List (String × List String) :=
  if c ∈ excl then sel
  else if (pick1 args c).isEmpty then sel
  else dictSet sel c (pick1 args c)

/-- `cols_lc.get(lc)`: the real column whose lowercase equals `lc`; the
dict comprehension lets a later column overwrite an earlier one, so the
last match wins. -/
def realColOf (baseCols : List String) (lc : String) : Option String :=
  baseCols.reverse.find? (fun c => strLower c = lc)

/-- One iteration of the second `build_params` loop (over the request's
keys): skip keys already present in the selections, resolve the key
case-insensitively to a real non-excluded column, and store its values. -/
def step2 (args : Args) (baseCols excl : List String)
    (sel : List (String × List String)) (k : String) :
    List (String × List String) :=
  if sel.any (fun e => e.1 = k) then sel
  else
    match realColOf baseCols (strLower k) with
    | some real =>
        if real ∈ excl then sel
        else
          if (args.getlist k).isEmpty then sel
          else dictSet sel real (args.getlist k)
    | none => sel

/-- The selections dict `build_params` constructs: the column loop, then
the request-key loop. -/
def buildSelections (args : Args) (baseCols excl : List String) :
    List (String × List String) :=
  args.keys.foldl (step2 args baseCols excl)
    (baseCols.foldl (step1 args excl) [])

/-- `build_params` (dashboard/helpers.py): dates from
`start_date`/`end_date`, case-insensitive column selections, frequency
defaulted to "D" unless one of D/W/M, metric passed through (empty as
none). -/
def build_params (args : Args) (baseCols excl : List String) :
    FilterParams :=
  let fraw :=
    match args.get "freq" with
    | some v => if v = "" then "D" else v
    | none => "D"
  let f := strUpper fraw
  { start := _parse_date ((args.get "start_date").getD "")
    end_ := _parse_date ((args.get "end_date").getD "")
    selections := buildSelections args baseCols excl
    freq := if f = "D" ∨ f = "W" ∨ f = "M" then f else "D"
    metric :=
      match args.get "metric" with
      | some v => if v = "" then none else some v
      | none => none }

/-- What one iteration of the first `build_params` loop contributes. -/
def pickEntry (args : Args) (excl : List String) (c : String) :
    Option (String × List String) :=
  if c ∈ excl then none
  else if (pick1 args c).isEmpty then none
  else some (c, pick1 args c)

/-- The request keys `build_params` treats specially (not column
filters). -/
def specialKeys : List String :=
  ["start_date", "end_date", "freq", "metric"]

/-- Pointwise relation between two request mappings "whose filter keys
differ only in letter case with identical values": corresponding entries
hold the same values, their keys agree up to ASCII case, and a key that
is not literally identical must be a (case-variant) filter key — it
lowercases into the schema and is not one of the special keys. -/
def C7Rel (baseCols : List String) (p q : String × List String) : Prop :=
  strLower q.1 = strLower p.1 ∧ q.2 = p.2
    ∧ (p.1 = q.1
        ∨ (strLower p.1 ∈ baseCols.map strLower
            ∧ strLower p.1 ∉ specialKeys))

instance (baseCols : List String) (p q : String × List String) :
    Decidable (C7Rel baseCols p q) := by
  unfold C7Rel
  infer_instance

/-- A concrete environment where the embedded table is missing, the remote
fetch fails, and local CSV files matching the configured pattern exist and
would build a non-empty table. -/
def c3Env : LoadEnv :=
  { cfg := defaultCfg
    cachedDf := none
    tableExists := false
    duckTable := none
    bucketUrl := some "https://bucket.example/data.parquet"
    remoteFetch := none
    csvFiles := ["data/a.csv"]
    csvTable := ⟨[("chargedate", Dtype.obj), ("kwh", Dtype.obj)],
      [[Cell.s "05-Jan-24", Cell.s "7"]]⟩ }

end Volta

namespace Volta

theorem colNames_filterRows (t : Table) (p : Row → Bool) :
    (t.filterRows p).colNames = t.colNames := rfl

theorem header_filterRows (t : Table) (p : Row → Bool) :
    (t.filterRows p).header = t.header := rfl

theorem cellAt_congr {s t : Table} (h : s.header = t.header) (r : Row)
    (c : String) : cellAt s r c = cellAt t r c := by
  simp only [cellAt, Table.colIdx, h]

theorem colNames_congr {s t : Table} (h : s.header = t.header) :
    s.colNames = t.colNames := by
  simp only [Table.colNames, h]

theorem cellAt_filterRows (t : Table) (p : Row → Bool) (r : Row)
    (c : String) : cellAt (t.filterRows p) r c = cellAt t r c := rfl

theorem filterRows_filterRows (t : Table) (p q : Row → Bool) :
    (t.filterRows p).filterRows q
      = t.filterRows (fun r => p r && q r) := by
  unfold Table.filterRows
  refine congrArg (Table.mk t.header) ?_
  rw [List.filter_filter]
  exact List.filter_congr (fun r _ => Bool.and_comm (q r) (p r))

theorem filterRows_true (t : Table) :
    t.filterRows (fun _ => true) = t := by
  unfold Table.filterRows
  rw [List.filter_true]

theorem selPred_congr {s t : Table} (h : s.header = t.header)
    (cv : String × List String) (r : Row) :
    selPred s cv r = selPred t cv r := by
  simp only [selPred, cellAt_congr h, colNames_congr h]

theorem header_selStep (out : Table) (cv : String × List String) :
    (selStep out cv).header = out.header := by
  unfold selStep
  split <;> rfl

theorem selFoldl_eq_filter (ns : List (String × List String)) (t : Table) :
    ns.foldl selStep t
      = t.filterRows (fun r => ns.all (fun cw => selPred t cw r)) := by
  induction ns generalizing t with
  | nil =>
      simp only [List.foldl_nil, List.all_nil]
      exact (filterRows_true t).symm
  | cons cv ns ih =>
      have hh : (selStep t cv).header = t.header := header_selStep t cv
      have hrw : (fun r => ns.all fun cw => selPred (selStep t cv) cw r)
          = (fun r => ns.all fun cw => selPred t cw r) := by
        funext r
        exact congrArg _ (funext fun cw => selPred_congr hh cw r)
      rw [List.foldl_cons, ih (selStep t cv), hrw]
      by_cases hc : cv.1 ∈ t.colNames ∧ !cv.2.isEmpty
      · unfold selStep
        rw [if_pos hc, filterRows_filterRows]
        refine congrArg _ ?_
        funext r
        rw [List.all_cons]
        simp only [selPred]
        rw [if_pos hc]
      · unfold selStep
        rw [if_neg hc]
        refine congrArg _ ?_
        funext r
        rw [List.all_cons]
        simp only [selPred]
        rw [if_neg hc, Bool.true_and]

theorem apply_eq_filter (fp : FilterParams) (t : Table) (dateCol : String) :
    fp.apply t dateCol
      = t.filterRows (fun r =>
          (normalizeSelections fp.selections).all (fun cw => selPred t cw r)
            && datePred fp t dateCol r) := by
  unfold FilterParams.apply
  rw [selFoldl_eq_filter]
  by_cases hd : dateCol ∈ t.colNames
  · rw [if_pos (by rw [colNames_filterRows]; exact hd)]
    cases hs : fp.start with
    | none =>
        cases he : fp.end_ with
        | none =>
            simp only [datePred, if_pos hd, hs, he, Bool.and_true]
        | some e =>
            simp only [hs, he, datePred, if_pos hd, Bool.true_and]
            rw [filterRows_filterRows]
            refine congrArg _ ?_
            funext r
            rw [cellAt_filterRows]
    | some s =>
        cases he : fp.end_ with
        | none =>
            simp only [hs, he, datePred, if_pos hd, Bool.and_true]
            rw [filterRows_filterRows]
            refine congrArg _ ?_
            funext r
            rw [cellAt_filterRows]
        | some e =>
            simp only [hs, he, datePred, if_pos hd]
            rw [filterRows_filterRows, filterRows_filterRows]
            refine congrArg _ ?_
            funext r
            simp only [cellAt_filterRows]
  · rw [if_neg (by rw [colNames_filterRows]; exact hd)]
    simp only [datePred, if_neg hd, Bool.and_true]

theorem all_filterMap {α β : Type} (l : List α) (f : α → Option β)
    (p : β → Bool) :
    (l.filterMap f).all p
      = l.all (fun a => match f a with | some b => p b | none => true) := by
  induction l with
  | nil => rfl
  | cons a l ih =>
      cases hfa : f a with
      | none => simp only [List.filterMap_cons, hfa, List.all_cons, ih,
          Bool.true_and]
      | some b => simp only [List.filterMap_cons, hfa, List.all_cons, ih]

theorem all_congr_mem {α : Type} {l : List α} {p q : α → Bool}
    (h : ∀ a ∈ l, p a = q a) : l.all p = l.all q := by
  induction l with
  | nil => rfl
  | cons a l ih =>
      rw [List.all_cons, List.all_cons, h a (List.mem_cons_self a l),
        ih (fun b hb => h b (List.mem_cons_of_mem a hb))]

theorem dateClauses_equiv (fp : FilterParams) (t : Table) (dateCol : String)
    (r : Row)
    (hdc : fp.start.isSome ∨ fp.end_.isSome → dateCol ∈ t.colNames)
    (hdate : (cellAt t r dateCol).isPureDate) :
    (dateClauses fp dateCol).all (evalClause t r)
      = datePred fp t dateCol r := by
  cases hs : fp.start with
  | none =>
      cases he : fp.end_ with
      | none =>
          by_cases hd : dateCol ∈ t.colNames <;>
            simp [dateClauses, datePred, hs, he, hd]
      | some e =>
          have hd : dateCol ∈ t.colNames := hdc (Or.inr (by rw [he]; rfl))
          simp only [dateClauses, hs, he, List.all_cons, List.all_nil,
            Bool.and_true, datePred, if_pos hd, Bool.true_and]
          cases hcell : cellAt t r dateCol <;>
            rw [hcell] at hdate <;> simp [Cell.isPureDate] at hdate
          · case t v =>
              simp only [evalClause, hcell, sqlDate, pdDateLe]
              rw [decide_eq_decide]
              omega
          · case na => simp [evalClause, hcell, sqlDate, pdDateLe]
  | some s =>
      have hd : dateCol ∈ t.colNames := hdc (Or.inl (by rw [hs]; rfl))
      cases he : fp.end_ with
      | none =>
          simp only [dateClauses, hs, he, List.all_cons, List.all_nil,
            Bool.and_true, datePred, if_pos hd]
          cases hcell : cellAt t r dateCol <;>
            rw [hcell] at hdate <;> simp [Cell.isPureDate] at hdate
          · case t v =>
              simp only [evalClause, hcell, sqlDate, pdDateGe]
              rw [decide_eq_decide]
              omega
          · case na => simp [evalClause, hcell, sqlDate, pdDateGe]
      | some e =>
          simp only [dateClauses, hs, he, List.all_cons, List.all_nil,
            Bool.and_true, datePred, if_pos hd]
          cases hcell : cellAt t r dateCol <;>
            rw [hcell] at hdate <;> simp [Cell.isPureDate] at hdate
          · case t v =>
              simp only [evalClause, hcell, sqlDate, pdDateGe, pdDateLe,
                Bool.decide_and]
              refine congrArg₂ (· && ·) ?_ ?_ <;> rw [decide_eq_decide]
                <;> omega
          · case na => simp [evalClause, hcell, sqlDate, pdDateGe, pdDateLe]

theorem selClauses_equiv (fp : FilterParams) (t : Table) (r : Row)
    (hsel : ∀ cv ∈ normalizeSelections fp.selections,
      cv.1 ∈ t.colNames → (cellAt t r cv.1).isStrOrNum) :
    (selClauses fp (some t.colNames)).all (evalClause t r)
      = (normalizeSelections fp.selections).all
          (fun cw => selPred t cw r) := by
  unfold selClauses
  rw [all_filterMap]
  apply all_congr_mem
  intro cv hcv
  unfold selClauseOf
  by_cases hemp : cv.2.isEmpty
  · have h2 : cv.2 = [] := by
      cases cv2 : cv.2
      · rfl
      · rw [cv2] at hemp; simp [List.isEmpty] at hemp
    simp [selPred, hemp, h2]
  · by_cases hcol : cv.1 ∈ t.colNames
    · have hcell := hsel cv hcv hcol
      simp only [if_neg hemp, if_pos hcol]
      have hpred : selPred t cv r
          = cv.2.contains (cellAt t r cv.1).strcast := by
        unfold selPred
        rw [if_pos ⟨hcol, by simp [hemp]⟩]
      rw [hpred]
      cases hc : cellAt t r cv.1 <;> rw [hc] at hcell <;>
        simp [Cell.isStrOrNum] at hcell <;>
        simp [evalClause, hc, Cell.sqlVarchar, Cell.strcast]
    · simp only [if_neg hemp, if_neg hcol]
      have hpred : selPred t cv r = true := by
        unfold selPred
        rw [if_neg (fun hand => hcol hand.1)]
      rw [hpred]

/-- C1 (amended): the in-memory filter path and the embedded-engine WHERE
path select exactly the same rows — same order, cardinality and identities
— provided the date column holds pure calendar dates (or missing values),
the date column exists whenever a date bound is set, and the filtered
selection columns hold plain string/numeric cells, with the WHERE clause
built against the dataset's own column set. -/
theorem c1_filter_paths_agree (fp : FilterParams) (t : Table)
    (dateCol : String)
    (hdc : fp.start.isSome ∨ fp.end_.isSome → dateCol ∈ t.colNames)
    (hdate : ∀ r ∈ t.rows, (cellAt t r dateCol).isPureDate)
    (hsel : ∀ cv ∈ normalizeSelections fp.selections,
      cv.1 ∈ t.colNames → ∀ r ∈ t.rows, (cellAt t r cv.1).isStrOrNum) :
    sqlSelect (whereClauses fp dateCol (some t.colNames)) t
      = fp.apply t dateCol := by
  rw [apply_eq_filter]
  unfold sqlSelect whereClauses Table.filterRows
  refine congrArg (Table.mk t.header) ?_
  apply List.filter_congr
  intro r hr
  rw [List.all_append,
    dateClauses_equiv fp t dateCol r hdc (hdate r hr),
    selClauses_equiv fp t r (fun cv hcv hcol => hsel cv hcv hcol r hr)]
  exact Bool.and_comm _ _

/-- C1 as stated is false: on a dataset whose date column holds the
timestamp 01:00 of day 0 with an end bound of day 0, the in-memory path
drops the row (timestamp comparison) while the engine path keeps it
(CAST to DATE truncates), so the selected row sets differ. -/
theorem c1_counterexample :
    ((FilterParams.mk none (some 0) [] "D" none).apply
        (Table.mk [("chargedate", Dtype.dt)] [[Cell.t 3600]])
        "chargedate").rows = []
      ∧ (sqlSelect
          (whereClauses (FilterParams.mk none (some 0) [] "D" none)
            "chargedate"
            (some (Table.mk [("chargedate", Dtype.dt)]
              [[Cell.t 3600]]).colNames))
          (Table.mk [("chargedate", Dtype.dt)] [[Cell.t 3600]])).rows
        = [[Cell.t 3600]] := by
  constructor <;> rfl

/-- Witness instantiating `c1_filter_paths_agree` on a concrete dataset
and filter (one selection, both date bounds). -/
theorem c1_filter_paths_agree_witness :
    sqlSelect
        (whereClauses
          (FilterParams.mk (some 1) (some 2) [("loc", ["A", "B"])] "D" none)
          "chargedate"
          (some (Table.mk
            [("chargedate", Dtype.dt), ("loc", Dtype.obj)]
            [[Cell.t 86400, Cell.s "A"], [Cell.t 259200, Cell.s "B"],
             [Cell.t 172800, Cell.s "C"]]).colNames))
        (Table.mk [("chargedate", Dtype.dt), ("loc", Dtype.obj)]
          [[Cell.t 86400, Cell.s "A"], [Cell.t 259200, Cell.s "B"],
           [Cell.t 172800, Cell.s "C"]])
      = (FilterParams.mk (some 1) (some 2) [("loc", ["A", "B"])] "D"
          none).apply
          (Table.mk [("chargedate", Dtype.dt), ("loc", Dtype.obj)]
            [[Cell.t 86400, Cell.s "A"], [Cell.t 259200, Cell.s "B"],
             [Cell.t 172800, Cell.s "C"]])
          "chargedate" :=
  c1_filter_paths_agree _ _ _ (by decide) (by decide) (by decide)

/-- C6: with no date bounds and no applicable selection (every entry has
an effectively empty value list or a column outside the available set),
`to_sql_where` returns the always-true clause `1=1` with no parameters. -/
theorem c6_tautology (fp : FilterParams) (dateCol : String)
    (avail : List String)
    (hs : fp.start = none) (he : fp.end_ = none)
    (hsel : ∀ cv ∈ fp.selections,
      cv.2.filter (fun v => v ≠ "") = [] ∨ cv.1 ∉ avail) :
    fp.to_sql_where dateCol (some avail) = ("1=1", []) := by
  have hcs : whereClauses fp dateCol (some avail) = [] := by
    unfold whereClauses dateClauses selClauses
    rw [hs, he, List.nil_append, List.filterMap_eq_nil_iff]
    intro cv hcv
    obtain ⟨a, ha, rfl⟩ := List.mem_map.mp hcv
    have ha2 := (List.mem_filter.mp ha).1
    unfold selClauseOf
    rcases hsel a ha2 with h2 | h2
    · exact if_pos (by rw [h2]; rfl)
    · by_cases hemp : (a.2.filter (fun v => v ≠ "")).isEmpty
      · exact if_pos hemp
      · rw [if_neg hemp]
        exact if_neg h2
  unfold FilterParams.to_sql_where
  rw [hcs]
  rfl

/-- Witness instantiating `c6_tautology`: a filter with one empty value
list and one selection on an unavailable column still yields `1=1`. -/
theorem c6_tautology_witness :
    (FilterParams.mk none none [("loc", [""]), ("ghost", ["x"])] "D"
        none).to_sql_where "chargedate" (some ["chargedate", "loc"])
      = ("1=1", []) :=
  c6_tautology _ _ _ rfl rfl (by decide)

/-- C8: a selections entry mapping a column to an empty value list is
neutral — both the pandas path and the SQL path behave exactly as if the
entry were absent from the mapping. -/
theorem c8_empty_selection_neutral (s e : Option Nat)
    (S1 S2 : List (String × List String)) (c : String) (freq : String)
    (metric : Option String) (t : Table) (dateCol : String)
    (avail : Option (List String)) :
    (FilterParams.mk s e (S1 ++ (c, []) :: S2) freq metric).apply t dateCol
        = (FilterParams.mk s e (S1 ++ S2) freq metric).apply t dateCol
      ∧ (FilterParams.mk s e (S1 ++ (c, []) :: S2) freq
          metric).to_sql_where dateCol avail
        = (FilterParams.mk s e (S1 ++ S2) freq metric).to_sql_where
            dateCol avail := by
  have hnorm : normalizeSelections (S1 ++ (c, []) :: S2)
      = normalizeSelections (S1 ++ S2) := by
    unfold normalizeSelections
    rw [List.filter_append, List.filter_append, List.filter_cons]
    rfl
  constructor
  · unfold FilterParams.apply
    rw [hnorm]
  · simp only [FilterParams.to_sql_where, whereClauses, selClauses,
      dateClauses, hnorm]

theorem countQ_append (a b : String) :
    countQ (a ++ b) = countQ a + countQ b := by
  unfold countQ
  rw [show (a ++ b).toList = a.toList ++ b.toList from rfl,
    List.count_append]

theorem countQ_go (sep : String) (hsep : countQ sep = 0)
    (l : List String) (acc : String) :
    countQ (String.intercalate.go acc sep l)
      = countQ acc + (l.map countQ).sum := by
  induction l generalizing acc with
  | nil => simp [String.intercalate.go]
  | cons b bs ih =>
      rw [show String.intercalate.go acc sep (b :: bs)
          = String.intercalate.go (acc ++ sep ++ b) sep bs from rfl,
        ih (acc ++ sep ++ b), countQ_append, countQ_append, hsep]
      simp only [List.map_cons, List.sum_cons]
      omega

theorem countQ_intercalate (sep : String) (hsep : countQ sep = 0)
    (l : List String) :
    countQ (String.intercalate sep l) = (l.map countQ).sum := by
  cases l with
  | nil => rfl
  | cons a as =>
      rw [show String.intercalate sep (a :: as)
          = String.intercalate.go a sep as from rfl,
        countQ_go sep hsep as a]
      simp

theorem sum_map_one {α : Type} (l : List α) :
    (l.map (fun _ => (1 : Nat))).sum = l.length := by
  induction l with
  | nil => rfl
  | cons a l ih => simp [ih]; omega

theorem length_flatMap {α β : Type} (l : List α) (f : α → List β) :
    (l.flatMap f).length = (l.map (fun a => (f a).length)).sum := by
  induction l with
  | nil => rfl
  | cons a l ih => simp [List.flatMap_cons, ih]

theorem countQ_renderClause (cl : SqlClause)
    (h : countQ (colOf cl) = 0) :
    countQ (renderClause cl) = (clauseParams cl).length := by
  cases cl with
  | between c lo hi =>
      simp only [colOf] at h
      simp only [renderClause, clauseParams, countQ_append, h]
      rfl
  | dge c d =>
      simp only [colOf] at h
      simp only [renderClause, clauseParams, countQ_append, h]
      rfl
  | dle c d =>
      simp only [colOf] at h
      simp only [renderClause, clauseParams, countQ_append, h]
      rfl
  | inlist c vs =>
      simp only [colOf] at h
      simp only [renderClause, clauseParams, countQ_append, h,
        countQ_intercalate "," rfl, List.map_map]
      rw [show (countQ ∘ fun _ => "?") = (fun _ : String => (1 : Nat))
          from rfl, sum_map_one,
        show countQ "CAST(" = 0 from rfl,
        show countQ " AS VARCHAR) IN (" = 0 from rfl,
        show countQ ")" = 0 from rfl]
      omega

theorem whereClauses_cols (fp : FilterParams) (dateCol : String)
    (avail : Option (List String))
    (hq1 : countQ dateCol = 0)
    (hq2 : ∀ cv ∈ normalizeSelections fp.selections, countQ cv.1 = 0) :
    ∀ cl ∈ whereClauses fp dateCol avail, countQ (colOf cl) = 0 := by
  intro cl hcl
  rcases List.mem_append.mp hcl with hd | hs
  · unfold dateClauses at hd
    cases hfs : fp.start <;> cases hfe : fp.end_ <;>
      rw [hfs, hfe] at hd <;> simp at hd <;>
      (rw [hd]; exact hq1)
  · obtain ⟨cv, hcv, heq⟩ := List.mem_filterMap.mp hs
    unfold selClauseOf at heq
    by_cases hemp : cv.2.isEmpty
    · rw [if_pos hemp] at heq; exact absurd heq (by simp)
    · rw [if_neg hemp] at heq
      cases avail with
      | none =>
          have heq2 : some (SqlClause.inlist cv.1 cv.2) = some cl := heq
          simp only [Option.some.injEq] at heq2
          rw [← heq2]
          exact hq2 cv hcv
      | some cols =>
          have heq2 : (if cv.1 ∈ cols then
              some (SqlClause.inlist cv.1 cv.2) else none) = some cl := heq
          by_cases hmem : cv.1 ∈ cols
          · rw [if_pos hmem] at heq2
            simp only [Option.some.injEq] at heq2
            rw [← heq2]
            exact hq2 cv hcv
          · rw [if_neg hmem] at heq2
            exact absurd heq2 (by simp)

theorem map_const_of_length_eq {α β : Type} {l : List α} {l2 : List α}
    (x : β) (h : l.length = l2.length) :
    l.map (fun _ => x) = l2.map (fun _ => x) := by
  rw [List.map_const' l x, List.map_const' l2 x, h]

theorem selClauses_render_shape (avail : Option (List String))
    (l l2 : List (String × List String))
    (h : l.map (fun cv => (cv.1, cv.2.length))
      = l2.map (fun cv => (cv.1, cv.2.length))) :
    (l.filterMap (selClauseOf avail)).map renderClause
      = (l2.filterMap (selClauseOf avail)).map renderClause := by
  induction l generalizing l2 with
  | nil =>
      cases l2 with
      | nil => rfl
      | cons b bs => exact absurd h (by simp)
  | cons a as ih =>
      cases l2 with
      | nil => exact absurd h (by simp)
      | cons b bs =>
          simp only [List.map_cons, List.cons.injEq, Prod.mk.injEq] at h
          obtain ⟨⟨h1, h2⟩, hrest⟩ := h
          rw [List.filterMap_cons, List.filterMap_cons]
          have hemp : a.2.isEmpty = b.2.isEmpty := by
            cases ha2 : a.2 <;> cases hb2 : b.2 <;> simp_all
          by_cases he : a.2.isEmpty
          · rw [show selClauseOf avail a = none from by
                unfold selClauseOf; rw [if_pos he],
              show selClauseOf avail b = none from by
                unfold selClauseOf; rw [if_pos (hemp ▸ he)]]
            exact ih bs hrest
          · have hrender : renderClause (.inlist a.1 a.2)
                = renderClause (.inlist b.1 b.2) := by
              simp only [renderClause, h1]
              rw [map_const_of_length_eq "?" h2]
            cases avail with
            | none =>
                rw [show selClauseOf none a
                      = some (.inlist a.1 a.2) from by
                    unfold selClauseOf; rw [if_neg he],
                  show selClauseOf none b
                      = some (.inlist b.1 b.2) from by
                    unfold selClauseOf; rw [if_neg (hemp ▸ he)]]
                simp only [List.map_cons]
                rw [hrender, ih bs hrest]
            | some cols =>
                by_cases hm : a.1 ∈ cols
                · rw [show selClauseOf (some cols) a
                        = some (.inlist a.1 a.2) from by
                      unfold selClauseOf; rw [if_neg he]; exact if_pos hm,
                    show selClauseOf (some cols) b
                        = some (.inlist b.1 b.2) from by
                      unfold selClauseOf; rw [if_neg (hemp ▸ he)]
                      exact if_pos (h1 ▸ hm)]
                  simp only [List.map_cons]
                  rw [hrender, ih bs hrest]
                · rw [show selClauseOf (some cols) a = none from by
                      unfold selClauseOf; rw [if_neg he]; exact if_neg hm,
                    show selClauseOf (some cols) b = none from by
                      unfold selClauseOf; rw [if_neg (hemp ▸ he)]
                      exact if_neg (h1 ▸ hm)]
                  exact ih bs hrest

/-- C10 (amended), two parts.  (1) When the date column name and the
normalized selection column names contain no `?` character, the clause
text contains exactly as many `?` placeholders as there are parameters.
(2) The clause text depends only on the filter's shape — the date-bound
presence pattern and each normalized selection's column and value count —
so selection values are only ever passed through the parameter list,
never interpolated into the clause text. -/
theorem c10_placeholder_discipline (fp fp2 : FilterParams)
    (dateCol : String) (avail : Option (List String)) :
    (countQ dateCol = 0 →
      (∀ cv ∈ normalizeSelections fp.selections, countQ cv.1 = 0) →
      countQ (fp.to_sql_where dateCol avail).1
        = (fp.to_sql_where dateCol avail).2.length)
      ∧ (fp.start = fp2.start → fp.end_ = fp2.end_ →
          (normalizeSelections fp.selections).map
              (fun cv => (cv.1, cv.2.length))
            = (normalizeSelections fp2.selections).map
                (fun cv => (cv.1, cv.2.length)) →
          (fp.to_sql_where dateCol avail).1
            = (fp2.to_sql_where dateCol avail).1) := by
  constructor
  · intro hq1 hq2
    have hcols := whereClauses_cols fp dateCol avail hq1 hq2
    unfold FilterParams.to_sql_where
    by_cases hemp : (whereClauses fp dateCol avail).isEmpty
    · rw [List.isEmpty_iff] at hemp
      rw [hemp]
      rfl
    · simp only [hemp, if_false, Bool.false_eq_true]
      rw [countQ_intercalate " AND " rfl, List.map_map, length_flatMap]
      apply congrArg
      exact List.map_eq_map_iff.mpr
        (fun cl hcl => countQ_renderClause cl (hcols cl hcl))
  · intro h1 h2 h3
    have hmap : (whereClauses fp dateCol avail).map renderClause
        = (whereClauses fp2 dateCol avail).map renderClause := by
      unfold whereClauses
      rw [List.map_append, List.map_append]
      refine congrArg₂ (· ++ ·) ?_ ?_
      · unfold dateClauses
        rw [h1, h2]
      · exact selClauses_render_shape avail _ _ h3
    have hlen : (whereClauses fp dateCol avail).length
        = (whereClauses fp2 dateCol avail).length := by
      rw [← List.length_map (whereClauses fp dateCol avail) renderClause,
        hmap, List.length_map]
    have hemp : (whereClauses fp dateCol avail).isEmpty
        = (whereClauses fp2 dateCol avail).isEmpty := by
      cases hc1 : whereClauses fp dateCol avail <;>
        cases hc2 : whereClauses fp2 dateCol avail <;> simp_all
    unfold FilterParams.to_sql_where
    by_cases he : (whereClauses fp dateCol avail).isEmpty
    · rw [if_pos he, if_pos (hemp ▸ he)]
    · rw [if_neg he, if_neg (hemp ▸ he)]
      rw [hmap]

/-- C10 as stated is false: with a date column literally named `a?` and a
single start bound, the clause text contains two `?` characters but the
parameter list has a single entry. -/
theorem c10_counterexample :
    countQ ((FilterParams.mk (some 3) none [] "D" none).to_sql_where
        "a?" (some [])).1 = 2
      ∧ ((FilterParams.mk (some 3) none [] "D" none).to_sql_where
          "a?" (some [])).2.length = 1 := by
  constructor <;> rfl

/-- Witness instantiating `c10_placeholder_discipline` on a concrete
filter: the placeholder count matches the parameter count, and replacing
the selection values leaves the clause text unchanged. -/
theorem c10_placeholder_discipline_witness :
    countQ ((FilterParams.mk (some 1) (some 2) [("loc", ["A", "B"])] "D"
          none).to_sql_where "chargedate" (some ["chargedate", "loc"])).1
      = ((FilterParams.mk (some 1) (some 2) [("loc", ["A", "B"])] "D"
          none).to_sql_where "chargedate" (some ["chargedate", "loc"])).2.length
    ∧ ((FilterParams.mk (some 1) (some 2) [("loc", ["A", "B"])] "D"
          none).to_sql_where "chargedate" (some ["chargedate", "loc"])).1
      = ((FilterParams.mk (some 1) (some 2) [("loc", ["xx", "yyy"])] "D"
          none).to_sql_where "chargedate" (some ["chargedate", "loc"])).1 :=
  ⟨(c10_placeholder_discipline
      (FilterParams.mk (some 1) (some 2) [("loc", ["A", "B"])] "D" none)
      (FilterParams.mk (some 1) (some 2) [("loc", ["xx", "yyy"])] "D" none)
      "chargedate" (some ["chargedate", "loc"])).1 rfl (by decide),
   (c10_placeholder_discipline
      (FilterParams.mk (some 1) (some 2) [("loc", ["A", "B"])] "D" none)
      (FilterParams.mk (some 1) (some 2) [("loc", ["xx", "yyy"])] "D" none)
      "chargedate" (some ["chargedate", "loc"])).2 rfl rfl (by decide)⟩

theorem load_sources_failed (e : LoadEnv)
    (h1 : e.cachedDf = none)
    (h2 : (if e.tableExists then e.duckTable else none) = none)
    (h3 : e.bucketUrl = none ∨ e.remoteFetch = none) :
    load e = (none, Table.empty) := by
  unfold load
  rw [h1, h2]
  rcases h3 with h3 | h3
  · rw [h3]
  · cases hb : e.bucketUrl with
    | none => rfl
    | some u => rw [h3]

/-- C3 (amended): when the embedded table cannot be loaded and the remote
fetch fails or no URL is configured, `DataStore.load` caches nothing and
returns the empty dataframe without raising — and it never attempts the
CSV rebuild: the result is the same whatever CSV files exist and whatever
table they would build (`rebuild_from_csv` is a separate operation that
`load` does not invoke). -/
theorem c3_no_csv_fallback (env : LoadEnv)
    (hc : env.cachedDf = none)
    (hduck : (if env.tableExists then env.duckTable else none) = none)
    (hremote : env.bucketUrl = none ∨ env.remoteFetch = none) :
    load env = (none, Table.empty)
      ∧ ∀ files tb,
          load { env with csvFiles := files, csvTable := tb }
            = (none, Table.empty) :=
  ⟨load_sources_failed env hc hduck hremote,
   fun _ _ => load_sources_failed _ hc hduck hremote⟩

/-- C3 as stated is false: in a concrete environment where the embedded
table is missing, the remote fetch fails, and CSV files matching the
configured pattern exist and would build a non-empty table, `load` still
returns the empty dataset — it does not build from the CSVs. -/
theorem c3_counterexample :
    c3Env.csvFiles ≠ [] ∧ c3Env.csvTable ≠ Table.empty
      ∧ c3Env.cachedDf = none ∧ c3Env.tableExists = false
      ∧ c3Env.remoteFetch = none
      ∧ (load c3Env).2 = Table.empty
      ∧ (load c3Env).2 ≠ c3Env.csvTable :=
  ⟨by decide, by decide, rfl, rfl, rfl, rfl, by decide⟩

/-- Witness instantiating `c3_no_csv_fallback` at `c3Env`. -/
theorem c3_no_csv_fallback_witness :
    load c3Env = (none, Table.empty)
      ∧ ∀ files tb,
          load { c3Env with csvFiles := files, csvTable := tb }
            = (none, Table.empty) :=
  c3_no_csv_fallback c3Env rfl rfl (Or.inr rfl)

theorem compute_summary_empty (cfg : Cfg) :
    compute_summary cfg Table.empty
      = { rows := 0, cols := 0, meters := none, locations := none,
          date_min := "", date_max := "" } := by
  unfold compute_summary
  rw [if_neg]
  · rfl
  · intro h
    exact absurd h.2.2 (by decide)

/-- C4: when every acquisition source fails, `get` returns a zero-row,
zero-column table rather than raising, and `compute_summary` on that table
reports `rows = 0` and empty-string date bounds. -/
theorem c4_graceful_empty (env : LoadEnv)
    (hc : env.cachedDf = none)
    (hduck : (if env.tableExists then env.duckTable else none) = none)
    (hremote : env.bucketUrl = none ∨ env.remoteFetch = none) :
    get env = Table.empty
      ∧ (get env).rows.length = 0 ∧ (get env).header.length = 0
      ∧ (compute_summary env.cfg (get env)).rows = 0
      ∧ (compute_summary env.cfg (get env)).date_min = ""
      ∧ (compute_summary env.cfg (get env)).date_max = "" := by
  have hload := load_sources_failed env hc hduck hremote
  have hget : get env = Table.empty := by
    unfold get
    rw [hload]
  rw [hget, compute_summary_empty env.cfg]
  exact ⟨rfl, rfl, rfl, rfl, rfl, rfl⟩

/-- Witness instantiating `c4_graceful_empty` at `c3Env`. -/
theorem c4_graceful_empty_witness :
    get c3Env = Table.empty
      ∧ (get c3Env).rows.length = 0 ∧ (get c3Env).header.length = 0
      ∧ (compute_summary c3Env.cfg (get c3Env)).rows = 0
      ∧ (compute_summary c3Env.cfg (get c3Env)).date_min = ""
      ∧ (compute_summary c3Env.cfg (get c3Env)).date_max = "" :=
  c4_graceful_empty c3Env rfl rfl (Or.inr rfl)

theorem dedupFirstAux_eq_self {α : Type} [DecidableEq α] (l : List α)
    (seen : List α) (h : l.Nodup) (hdisj : ∀ a ∈ l, a ∉ seen) :
    dedupFirstAux l seen = l := by
  induction l generalizing seen with
  | nil => rfl
  | cons a as ih =>
      rw [dedupFirstAux,
        if_neg (hdisj a (List.mem_cons_self a as))]
      refine congrArg (List.cons a) (ih (a :: seen)
        (List.nodup_cons.mp h).2 ?_)
      intro b hb
      rw [List.mem_cons]
      rintro (hba | hbs)
      · exact (List.nodup_cons.mp h).1 (hba ▸ hb)
      · exact hdisj b (List.mem_cons_of_mem a hb) hbs

theorem dedupFirst_eq_self {α : Type} [DecidableEq α] {l : List α}
    (h : l.Nodup) : dedupFirst l = l :=
  dedupFirstAux_eq_self l [] h (fun a _ => List.not_mem_nil a)

theorem list_set_self {α : Type} (l : List α) (i : Nat) (v : α)
    (h : l.get? i = some v) : l.set i v = l := by
  induction l generalizing i with
  | nil => rfl
  | cons a as ih =>
      cases i with
      | zero =>
          have h2 : some a = some v := h
          injection h2 with h3
          rw [show (a :: as).set 0 v = v :: as from rfl, h3]
      | succ j =>
          have h2 : as.get? j = some v := h
          rw [show (a :: as).set (j + 1) v = a :: as.set j v from rfl,
            ih j h2]

theorem setColF_present (t : Table) (c : String) (g : Row → Cell)
    (j : Nat) (hj : t.colIdx c = some j) :
    t.setColF c g
      = ⟨t.header.set j (c, Dtype.obj),
         t.rows.map (fun r => r.set j (g r))⟩ := by
  unfold Table.setColF
  rw [hj]

theorem mapCol_present (t : Table) (c : String) (f : Cell → Cell)
    (dty : Dtype) (i : Nat) (hi : t.colIdx c = some i) :
    t.mapCol c f dty
      = ⟨t.header.set i (c, dty),
         t.rows.map (fun r => r.set i (f (r.getD i Cell.na)))⟩ := by
  unfold Table.mapCol
  rw [hi]

theorem mapCol_absent (t : Table) (c : String) (f : Cell → Cell)
    (dty : Dtype) (hi : t.colIdx c = none) :
    t.mapCol c f dty = t := by
  unfold Table.mapCol
  rw [hi]

theorem map_eq_self_of {α : Type} (l : List α) (f : α → α)
    (h : ∀ a ∈ l, f a = a) : l.map f = l := by
  induction l with
  | nil => rfl
  | cons a as ih =>
      rw [List.map_cons, h a (List.mem_cons_self a as),
        ih (fun b hb => h b (List.mem_cons_of_mem a hb))]

theorem foldl_fixpoint {α β : Type} (f : α → β → α) (x : α) (l : List β)
    (h : ∀ b ∈ l, f x b = x) : l.foldl f x = x := by
  induction l with
  | nil => rfl
  | cons b bs ih =>
      rw [List.foldl_cons, h b (List.mem_cons_self b bs)]
      exact ih (fun c hc => h c (List.mem_cons_of_mem b hc))

/-- C2 (amended): `_preprocess` is a no-op on a table already in fully
normalized form — no duplicate rows, no missing values, `res_mapped`
consistent with `res`, a datetime-typed date column, numeric metric
columns whose cells the numeric coercion fixes. -/
theorem c2_normalized_fixed (cfg : Cfg) (t : Table)
    (h1 : t.rows.Nodup)
    (h2 : ∀ r ∈ t.rows, r.contains Cell.na = false)
    (h3 : "res" ∈ t.colNames ∧ cfg.resMap ≠ [] →
      resMappedConsistent cfg t = true)
    (h4 : cfg.dateCol ∈ t.colNames →
      t.dtypeOf cfg.dateCol = some Dtype.dt)
    (h5 : metricColsNormal cfg t = true) :
    _preprocess cfg t = t := by
  have s1 : t.dedupRows = t := by
    unfold Table.dedupRows
    rw [dedupFirst_eq_self h1]

  have s2 : _clean_nan_rows t = t := by
    unfold _clean_nan_rows Table.filterRows
    rw [List.filter_eq_self.mpr (fun r hr => by rw [h2 r hr]; rfl)]
  have s3 : (if "res" ∈ t.colNames ∧ cfg.resMap ≠ [] then
      t.setColF "res_mapped"
        (fun r =>
          Cell.s ((cfg.resMap.lookup (cellAt t r "res").strcast).getD
            "Unknown"))
    else t) = t := by
    by_cases hres : "res" ∈ t.colNames ∧ cfg.resMap ≠ []
    · rw [if_pos hres]
      have hr := h3 hres
      unfold resMappedConsistent at hr
      cases hj : t.colIdx "res_mapped" with
      | none => rw [hj] at hr; exact absurd hr (by simp)
      | some j =>
          rw [hj] at hr
          simp only [Bool.and_eq_true, beq_iff_eq, List.all_eq_true] at hr
          obtain ⟨hhd, hrows⟩ := hr
          rw [setColF_present t _ _ j hj]
          rw [show t.header.set j ("res_mapped", Dtype.obj) = t.header
            from list_set_self _ _ _ hhd]
          rw [map_eq_self_of _ _
            (fun r hr2 => list_set_self _ _ _ (hrows r hr2))]
    · rw [if_neg hres]
  have s4 : (if cfg.dateCol ≠ "" ∧ cfg.dateCol ∈ t.colNames
      ∧ ¬ t.dtypeOf cfg.dateCol = some Dtype.dt then
      t.mapCol cfg.dateCol parseDateCell Dtype.dt
    else t) = t := by
    rw [if_neg]
    intro hcond
    exact hcond.2.2 (h4 hcond.2.1)
  have s5 : cfg.metricKeys.foldl numStep t = t := by
    apply foldl_fixpoint
    intro k hk
    unfold numStep
    by_cases hkc : k ∈ t.colNames
    · rw [if_pos hkc]
      have h5k := (List.all_eq_true.mp h5) k hk
      cases hj : t.colIdx k with
      | none => rw [mapCol_absent t _ _ _ hj]
      | some i =>
          rw [mapCol_present t _ _ _ i hj]
          rw [hj] at h5k
          simp only [Bool.and_eq_true, beq_iff_eq, List.all_eq_true]
            at h5k
          obtain ⟨hhd, hrows⟩ := h5k
          rw [show t.header.set i (k, Dtype.num) = t.header
            from list_set_self _ _ _ hhd]
          rw [map_eq_self_of _ _ ?_]
          intro r hr2
          have hcell := hrows r hr2
          cases hg : r.get? i with
          | none => rw [hg] at hcell; exact absurd hcell (by simp)
          | some cell =>
              rw [hg] at hcell
              simp only [beq_iff_eq] at hcell
              rw [show r.getD i Cell.na = cell from by
                  rw [List.getD_eq_getD_get?, hg]; rfl,
                hcell]
              exact list_set_self _ _ _ hg
    · rw [if_neg hkc]
  unfold _preprocess
  simp only [s1, s2, s3, s4]
  exact s5

/-- C2 as stated is false: `_preprocess` drops missing values before, not
after, the date/numeric coercions, so a row whose date string fails to
parse survives the first pass with a NaT and is then dropped by the
second pass, which therefore is not a no-op. -/
theorem c2_counterexample :
    _preprocess defaultCfg (_preprocess defaultCfg
        ⟨[("chargedate", Dtype.obj), ("kwh", Dtype.obj)],
         [[Cell.s "garbage", Cell.s "1"]]⟩)
      ≠ _preprocess defaultCfg
        ⟨[("chargedate", Dtype.obj), ("kwh", Dtype.obj)],
         [[Cell.s "garbage", Cell.s "1"]]⟩ := by
  decide

/-- Witness instantiating `c2_normalized_fixed` on a concrete normalized
table under the repository's configuration. -/
theorem c2_normalized_fixed_witness :
    _preprocess defaultCfg
        ⟨[("chargedate", Dtype.dt), ("res", Dtype.obj),
          ("res_mapped", Dtype.obj), ("kwh", Dtype.num)],
         [[Cell.t 86400, Cell.s "Resid [1]", Cell.s "Residential",
           Cell.n 5],
          [Cell.t 172800, Cell.s "zz", Cell.s "Unknown", Cell.n 7]]⟩
      = ⟨[("chargedate", Dtype.dt), ("res", Dtype.obj),
          ("res_mapped", Dtype.obj), ("kwh", Dtype.num)],
         [[Cell.t 86400, Cell.s "Resid [1]", Cell.s "Residential",
           Cell.n 5],
          [Cell.t 172800, Cell.s "zz", Cell.s "Unknown", Cell.n 7]]⟩ :=
  c2_normalized_fixed defaultCfg _ (by decide) (by decide) (by decide)
    (by decide) (by decide)

/-- C5: when the aggregated series has exactly 10 distinct string-cast
segment values and the cutoff is `n = 8`, the pie aggregation emits
exactly 9 entries, the 9th labeled "Other", and the 9 output values sum to
the sum of all 10 per-group sums. -/
theorem c5_pie_top_n (t : Table) (segCol metricCol : String)
    (h : (groupSum (extractPairs t segCol metricCol)).length = 10) :
    (pieTopN t segCol metricCol 8).length = 9
      ∧ ((pieTopN t segCol metricCol 8).map Prod.fst).get? 8
          = some "Other"
      ∧ ((pieTopN t segCol metricCol 8).map Prod.snd).sum
          = ((groupSum (extractPairs t segCol metricCol)).map
              Prod.snd).sum := by
  have hlen : (sortDesc (groupSum (extractPairs t segCol
      metricCol))).length = 10 := by
    unfold sortDesc
    rw [List.length_insertionSort]
    exact h
  have hif : pieTopN t segCol metricCol 8
      = (sortDesc (groupSum (extractPairs t segCol metricCol))).take 8
        ++ [("Other",
            (((sortDesc (groupSum (extractPairs t segCol
              metricCol))).drop 8).map Prod.snd).sum)] := by
    unfold pieTopN
    rw [if_pos (by rw [hlen]; omega)]
  refine ⟨?_, ?_, ?_⟩
  · rw [hif, List.length_append, List.length_take, hlen]
    rfl
  · rw [hif, List.map_append,
      List.get?_append_right
        (by rw [List.length_map, List.length_take, hlen]; omega)]
    rw [List.length_map, List.length_take, hlen]
    rfl
  · rw [hif, List.map_append, List.sum_append]
    have key : ((((sortDesc (groupSum (extractPairs t segCol
          metricCol))).take 8).map Prod.snd).sum)
          + ((((sortDesc (groupSum (extractPairs t segCol
              metricCol))).drop 8).map Prod.snd).sum)
        = (((sortDesc (groupSum (extractPairs t segCol
            metricCol))).map Prod.snd).sum) := by
      rw [← List.sum_append, ← List.map_append, List.take_append_drop]
    have hperm : (((sortDesc (groupSum (extractPairs t segCol
          metricCol))).map Prod.snd).sum)
        = (((groupSum (extractPairs t segCol metricCol)).map
            Prod.snd).sum) :=
      List.Perm.sum_eq (List.Perm.map Prod.snd
        (List.perm_insertionSort _ _))
    simp only [List.map_cons, List.map_nil, List.sum_cons,
      List.sum_nil, add_zero]
    rw [key, hperm]

/-- Witness instantiating `c5_pie_top_n` on a table whose segment column
has exactly 10 distinct values. -/
theorem c5_pie_top_n_witness :
    (pieTopN
        ⟨[("loc", Dtype.obj), ("kwh", Dtype.num)],
         [[Cell.s "c0", Cell.n 1], [Cell.s "c1", Cell.n 2],
          [Cell.s "c2", Cell.n 3], [Cell.s "c3", Cell.n 4],
          [Cell.s "c4", Cell.n 5], [Cell.s "c5", Cell.n 6],
          [Cell.s "c6", Cell.n 7], [Cell.s "c7", Cell.n 8],
          [Cell.s "c8", Cell.n 9], [Cell.s "c9", Cell.n 10]]⟩
        "loc" "kwh" 8).length = 9
      ∧ ((pieTopN
          ⟨[("loc", Dtype.obj), ("kwh", Dtype.num)],
           [[Cell.s "c0", Cell.n 1], [Cell.s "c1", Cell.n 2],
            [Cell.s "c2", Cell.n 3], [Cell.s "c3", Cell.n 4],
            [Cell.s "c4", Cell.n 5], [Cell.s "c5", Cell.n 6],
            [Cell.s "c6", Cell.n 7], [Cell.s "c7", Cell.n 8],
            [Cell.s "c8", Cell.n 9], [Cell.s "c9", Cell.n 10]]⟩
          "loc" "kwh" 8).map Prod.fst).get? 8 = some "Other"
      ∧ ((pieTopN
          ⟨[("loc", Dtype.obj), ("kwh", Dtype.num)],
           [[Cell.s "c0", Cell.n 1], [Cell.s "c1", Cell.n 2],
            [Cell.s "c2", Cell.n 3], [Cell.s "c3", Cell.n 4],
            [Cell.s "c4", Cell.n 5], [Cell.s "c5", Cell.n 6],
            [Cell.s "c6", Cell.n 7], [Cell.s "c7", Cell.n 8],
            [Cell.s "c8", Cell.n 9], [Cell.s "c9", Cell.n 10]]⟩
          "loc" "kwh" 8).map Prod.snd).sum
        = ((groupSum (extractPairs
            ⟨[("loc", Dtype.obj), ("kwh", Dtype.num)],
             [[Cell.s "c0", Cell.n 1], [Cell.s "c1", Cell.n 2],
              [Cell.s "c2", Cell.n 3], [Cell.s "c3", Cell.n 4],
              [Cell.s "c4", Cell.n 5], [Cell.s "c5", Cell.n 6],
              [Cell.s "c6", Cell.n 7], [Cell.s "c7", Cell.n 8],
              [Cell.s "c8", Cell.n 9], [Cell.s "c9", Cell.n 10]]⟩
            "loc" "kwh")).map Prod.snd).sum :=
  c5_pie_top_n _ "loc" "kwh"
    (by unfold groupSum
        rw [List.length_map, List.length_insertionSort]
        decide)

theorem toNat_charOfNat (n : Nat) (h : n.isValidChar) :
    (Char.ofNat n).toNat = n := by
  unfold Char.ofNat
  rw [dif_pos h]
  rfl

theorem charLower_idem (c : Char) :
    charLower (charLower c) = charLower c := by
  unfold charLower
  by_cases h : 65 ≤ c.toNat ∧ c.toNat ≤ 90
  · rw [if_pos h]
    have ht : (Char.ofNat (c.toNat + 32)).toNat = c.toNat + 32 :=
      toNat_charOfNat _ (Or.inl (by omega))
    rw [if_neg (by rw [ht]; omega)]
  · rw [if_neg h, if_neg h]

theorem strLower_idem (s : String) :
    strLower (strLower s) = strLower s := by
  unfold strLower
  refine congrArg String.mk ?_
  rw [show (String.mk (s.data.map charLower)).data
      = s.data.map charLower from rfl, List.map_map]
  exact List.map_eq_map_iff.mpr (fun c _ => charLower_idem c)

theorem find?_eq_some_of_unique {α : Type} {l : List α} {p : α → Bool}
    {a : α} (ha : a ∈ l) (hpa : p a = true)
    (huniq : ∀ b ∈ l, p b = true → b = a) :
    l.find? p = some a := by
  induction l with
  | nil => cases ha
  | cons x xs ih =>
      by_cases hx : p x = true
      · rw [List.find?_cons_of_pos _ hx,
          huniq x (List.mem_cons_self x xs) hx]
      · rw [List.find?_cons_of_neg _ hx]
        rcases List.mem_cons.mp ha with h | h
        · exact absurd (h ▸ hpa) hx
        · exact ih h
            (fun b hb hpb => huniq b (List.mem_cons_of_mem x hb) hpb)

theorem dictSet_mem_or {d : List (String × List String)} {k : String}
    {v : List String} {cv : String × List String}
    (h : cv ∈ dictSet d k v) : cv ∈ d ∨ cv = (k, v) := by
  unfold dictSet at h
  by_cases ha : d.any (fun e => e.1 = k)
  · rw [if_pos ha] at h
    obtain ⟨e, he, heq⟩ := List.mem_map.mp h
    by_cases hek : e.1 = k
    · rw [if_pos hek] at heq
      exact Or.inr heq.symm
    · rw [if_neg hek] at heq
      exact Or.inl (heq ▸ he)
  · rw [if_neg ha] at h
    rcases List.mem_append.mp h with h | h
    · exact Or.inl h
    · exact Or.inr (List.mem_singleton.mp h)

theorem dictSet_mem_set (d : List (String × List String)) (k : String)
    (v : List String) : (k, v) ∈ dictSet d k v := by
  unfold dictSet
  by_cases ha : d.any (fun e => e.1 = k)
  · rw [if_pos ha]
    obtain ⟨e, he, hek⟩ := List.any_eq_true.mp ha
    refine List.mem_map.mpr ⟨e, he, ?_⟩
    rw [if_pos (by exact of_decide_eq_true hek)]
  · rw [if_neg ha]
    exact List.mem_append.mpr (Or.inr (List.mem_singleton.mpr rfl))

theorem dictSet_mem_keep {d : List (String × List String)}
    {k : String} {v : List String} {cv : String × List String}
    (hmem : cv ∈ d) (h : cv.1 = k → cv.2 = v) : cv ∈ dictSet d k v := by
  unfold dictSet
  by_cases ha : d.any (fun e => e.1 = k)
  · rw [if_pos ha]
    refine List.mem_map.mpr ⟨cv, hmem, ?_⟩
    by_cases hck : cv.1 = k
    · rw [if_pos hck]
      rw [← hck, ← h hck]
    · rw [if_neg hck]
  · rw [if_neg ha]
    exact List.mem_append.mpr (Or.inl hmem)

theorem foldl_mem_preserve {α β : Type} (step : List α → β → List α)
    (P : α → Prop) (l : List β) (sel : List α)
    (hstep : ∀ s b, b ∈ l → (∀ x ∈ s, P x) → ∀ x ∈ step s b, P x)
    (hsel : ∀ x ∈ sel, P x) : ∀ x ∈ l.foldl step sel, P x := by
  induction l generalizing sel with
  | nil => exact hsel
  | cons b bs ih =>
      exact ih (step sel b)
        (fun s b2 hb2 => hstep s b2 (List.mem_cons_of_mem b hb2))
        (hstep sel b (List.mem_cons_self b bs) hsel)

theorem pickEntry_some {args : Args} {excl : List String} {c : String}
    {cv : String × List String} (h : pickEntry args excl c = some cv) :
    c ∉ excl ∧ ¬ (pick1 args c).isEmpty ∧ cv = (c, pick1 args c) := by
  unfold pickEntry at h
  by_cases h1 : c ∈ excl
  · rw [if_pos h1] at h; cases h
  · rw [if_neg h1] at h
    by_cases h2 : (pick1 args c).isEmpty
    · rw [if_pos h2] at h; cases h
    · rw [if_neg h2] at h
      exact ⟨h1, h2, (Option.some.injEq _ _ ▸ h).symm⟩

theorem loop1_eq (args : Args) (excl : List String) (cols : List String)
    (sel : List (String × List String))
    (hnd : cols.Nodup) (hdisj : ∀ e ∈ sel, e.1 ∉ cols) :
    cols.foldl (step1 args excl) sel
      = sel ++ cols.filterMap (pickEntry args excl) := by
  induction cols generalizing sel with
  | nil => simp
  | cons c cs ih =>
      rw [List.foldl_cons, List.filterMap_cons]
      have hnd2 := List.nodup_cons.mp hnd
      cases hpe : pickEntry args excl c with
      | none =>
          have hstep : step1 args excl sel c = sel := by
            unfold pickEntry at hpe
            unfold step1
            by_cases h1 : c ∈ excl
            · rw [if_pos h1]
            · rw [if_neg h1] at hpe
              by_cases h2 : (pick1 args c).isEmpty
              · rw [if_neg h1, if_pos h2]
              · rw [if_neg h2] at hpe; cases hpe
          rw [hstep]
          exact ih sel hnd2.2
            (fun e he hein => hdisj e he (List.mem_cons_of_mem c hein))
      | some cv =>
          obtain ⟨h1, h2, hcv⟩ := pickEntry_some hpe
          have hany : ¬ sel.any (fun e => e.1 = c) = true := by
            rw [List.any_eq_true]
            rintro ⟨e, he, hec⟩
            exact hdisj e he
              (of_decide_eq_true hec ▸ List.mem_cons_self c cs)
          have hstep : step1 args excl sel c = sel ++ [cv] := by
            unfold step1
            rw [if_neg h1, if_neg h2]
            unfold dictSet
            rw [if_neg hany, hcv]
          rw [hstep, ih (sel ++ [cv]) hnd2.2 ?_, List.append_assoc,
            List.singleton_append]
          intro e he
          rcases List.mem_append.mp he with he2 | he2
          · exact fun hein =>
              hdisj e he2 (List.mem_cons_of_mem c hein)
          · rw [List.mem_singleton.mp he2, hcv]
            exact hnd2.1

theorem getlist_of_mem (a : Args) (e : String × List String)
    (he : e ∈ a.entries) (hnd : (a.entries.map Prod.fst).Nodup) :
    a.getlist e.1 = e.2 := by
  unfold Args.getlist
  rw [find?_eq_some_of_unique he (by simp) ?_]
  · rfl
  · intro b hb hpb
    exact List.inj_on_of_nodup_map hnd hb he (of_decide_eq_true hpb)

theorem getlist_nonempty_mem (a : Args) (k : String)
    (h : ¬ (a.getlist k).isEmpty) :
    ∃ e ∈ a.entries, e.1 = k ∧ e.2 = a.getlist k := by
  unfold Args.getlist at h ⊢
  cases hf : a.entries.find? (fun e => e.1 = k) with
  | none => rw [hf] at h; exact absurd rfl h
  | some e =>
      have hp := List.find?_some hf
      exact ⟨e, List.mem_of_find?_eq_some hf,
        of_decide_eq_true hp, rfl⟩

theorem foldl_step2_preserves (args : Args) (baseCols excl : List String)
    (ks : List String) (sel : List (String × List String))
    (c : String) (vs : List String)
    (hmem : (c, vs) ∈ sel)
    (hv : ∀ k ∈ ks, realColOf baseCols (strLower k) = some c →
      args.getlist k = vs) :
    (c, vs) ∈ ks.foldl (step2 args baseCols excl) sel := by
  induction ks generalizing sel with
  | nil => exact hmem
  | cons k ks ih =>
      rw [List.foldl_cons]
      refine ih (step2 args baseCols excl sel k) ?_
        (fun k2 hk2 => hv k2 (List.mem_cons_of_mem k hk2))
      unfold step2
      by_cases hskip : sel.any (fun e => e.1 = k) = true
      · rw [if_pos hskip]; exact hmem
      · rw [if_neg hskip]
        cases hr : realColOf baseCols (strLower k) with
        | none => exact hmem
        | some real =>
            show (c, vs) ∈
              (if real ∈ excl then sel
               else if (args.getlist k).isEmpty = true then sel
               else dictSet sel real (args.getlist k))
            by_cases hex : real ∈ excl
            · rw [if_pos hex]; exact hmem
            · rw [if_neg hex]
              by_cases hemp : (args.getlist k).isEmpty
              · rw [if_pos hemp]; exact hmem
              · rw [if_neg hemp]
                refine dictSet_mem_keep hmem (fun hck => ?_)
                have hrc : realColOf baseCols (strLower k) = some c := by
                  rw [hr]
                  exact congrArg some hck.symm
                exact (hv k (List.mem_cons_self k ks) hrc).symm

theorem foldl_step2_complete (args : Args) (baseCols excl : List String)
    (ks : List String) (sel : List (String × List String))
    (k0 c : String) (vs : List String)
    (hnd : (ks.map strLower).Nodup)
    (hk : k0 ∈ ks)
    (hreal : realColOf baseCols (strLower k0) = some c)
    (hexcl : c ∉ excl)
    (hgl : args.getlist k0 = vs)
    (hvs : ¬ vs.isEmpty = true)
    (hselkeys : ∀ e ∈ sel, e.1 ∈ baseCols)
    (hk0base : k0 ∉ baseCols) :
    (c, vs) ∈ ks.foldl (step2 args baseCols excl) sel := by
  induction ks generalizing sel with
  | nil => cases hk
  | cons k ks ih =>
      rw [List.foldl_cons]
      by_cases hkk : k = k0
      · subst hkk
        have hskip : ¬ sel.any (fun e => e.1 = k) = true := by
          rw [List.any_eq_true]
          rintro ⟨e, he, hek⟩
          exact hk0base (of_decide_eq_true hek ▸ hselkeys e he)
        have hstep : step2 args baseCols excl sel k
            = dictSet sel c vs := by
          unfold step2
          rw [if_neg hskip, hreal]
          show (if c ∈ excl then sel
              else if (args.getlist k).isEmpty = true then sel
              else dictSet sel c (args.getlist k)) = dictSet sel c vs
          rw [if_neg hexcl, if_neg (by rw [hgl]; exact hvs), hgl]
        rw [hstep]
        refine foldl_step2_preserves args baseCols excl ks _ c vs
          (dictSet_mem_set sel c vs) ?_
        intro k2 hk2 hr2
        exfalso
        unfold realColOf at hr2 hreal
        have hd2 := List.find?_some hr2
        have hd0 := List.find?_some hreal
        have hpc : strLower c = strLower k2 := of_decide_eq_true hd2
        have hpc0 : strLower c = strLower k := of_decide_eq_true hd0
        have hmem2 : strLower k2 ∈ ks.map strLower :=
          List.mem_map_of_mem strLower hk2
        rw [← hpc, hpc0] at hmem2
        exact (List.nodup_cons.mp hnd).1 hmem2
      · have hkmem : k0 ∈ ks :=
          (List.mem_cons.mp hk).resolve_left (fun h => hkk h.symm)
        refine ih (step2 args baseCols excl sel k)
          (List.nodup_cons.mp hnd).2 hkmem ?_
        intro e he
        unfold step2 at he
        by_cases hskip : sel.any (fun x => x.1 = k) = true
        · rw [if_pos hskip] at he; exact hselkeys e he
        · rw [if_neg hskip] at he
          cases hr : realColOf baseCols (strLower k) with
          | none => rw [hr] at he; exact hselkeys e he
          | some real =>
              rw [hr] at he
              have he2 : e ∈
                  (if real ∈ excl then sel
                   else if (args.getlist k).isEmpty = true then sel
                   else dictSet sel real (args.getlist k)) := he
              by_cases hex : real ∈ excl
              · rw [if_pos hex] at he2; exact hselkeys e he2
              · rw [if_neg hex] at he2
                by_cases hemp : (args.getlist k).isEmpty
                · rw [if_pos hemp] at he2; exact hselkeys e he2
                · rw [if_neg hemp] at he2
                  rcases dictSet_mem_or he2 with h2 | h2
                  · exact hselkeys e h2
                  · rw [h2]
                    have := List.mem_of_find?_eq_some hr
                    exact List.mem_reverse.mp this

theorem buildSelections_sound (args : Args) (baseCols excl : List String) :
    ∀ cv ∈ buildSelections args baseCols excl,
      cv.1 ∈ baseCols ∧ cv.1 ∉ excl
        ∧ ∃ e ∈ args.entries, strLower e.1 = strLower cv.1
            ∧ ¬ e.2.isEmpty = true ∧ cv.2 = e.2 := by
  unfold buildSelections
  refine foldl_mem_preserve _ _ _ _ ?_ ?_
  · intro s k _ hP cv hcv
    unfold step2 at hcv
    by_cases hskip : s.any (fun e => e.1 = k) = true
    · rw [if_pos hskip] at hcv; exact hP cv hcv
    · rw [if_neg hskip] at hcv
      cases hr : realColOf baseCols (strLower k) with
      | none => rw [hr] at hcv; exact hP cv hcv
      | some real =>
          rw [hr] at hcv
          have hcv2 : cv ∈
              (if real ∈ excl then s
               else if (args.getlist k).isEmpty = true then s
               else dictSet s real (args.getlist k)) := hcv
          by_cases hex : real ∈ excl
          · rw [if_pos hex] at hcv2; exact hP cv hcv2
          · rw [if_neg hex] at hcv2
            by_cases hemp : (args.getlist k).isEmpty
            · rw [if_pos hemp] at hcv2; exact hP cv hcv2
            · rw [if_neg hemp] at hcv2
              rcases dictSet_mem_or hcv2 with h2 | h2
              · exact hP cv h2
              · subst h2
                unfold realColOf at hr
                have hd := List.find?_some hr
                have hpr : strLower real = strLower k :=
                  of_decide_eq_true hd
                obtain ⟨e, he, hek, hev⟩ :=
                  getlist_nonempty_mem args k hemp
                refine ⟨List.mem_reverse.mp
                  (List.mem_of_find?_eq_some hr), hex,
                  e, he, ?_, ?_, hev.symm⟩
                · rw [hek, hpr]
                · rw [hev]
                  exact hemp
  · refine foldl_mem_preserve _ _ _ _ ?_ (by intro x hx; cases hx)
    intro s c hcb hP cv hcv
    unfold step1 at hcv
    by_cases h1 : c ∈ excl
    · rw [if_pos h1] at hcv; exact hP cv hcv
    · rw [if_neg h1] at hcv
      by_cases h2 : (pick1 args c).isEmpty
      · rw [if_pos h2] at hcv; exact hP cv hcv
      · rw [if_neg h2] at hcv
        rcases dictSet_mem_or hcv with h3 | h3
        · exact hP cv h3
        · subst h3
          refine ⟨hcb, h1, ?_⟩
          unfold pick1 at h2 ⊢
          by_cases h4 : (args.getlist c).isEmpty
          · rw [if_pos h4] at h2 ⊢
            obtain ⟨e, he, hek, hev⟩ :=
              getlist_nonempty_mem args (strLower c) h2
            exact ⟨e, he, by rw [hek, strLower_idem],
              by rw [hev]; exact h2, hev.symm⟩
          · rw [if_neg h4] at h2 ⊢
            obtain ⟨e, he, hek, hev⟩ := getlist_nonempty_mem args c h4
            exact ⟨e, he, by rw [hek],
              by rw [hev]; exact h4, hev.symm⟩

theorem buildSelections_complete (args : Args)
    (baseCols excl : List String)
    (hbase : (baseCols.map strLower).Nodup)
    (hkeys : (args.keys.map strLower).Nodup)
    (c : String) (e : String × List String)
    (hc : c ∈ baseCols) (hcx : c ∉ excl)
    (he : e ∈ args.entries) (hlc : strLower e.1 = strLower c)
    (hne : ¬ e.2.isEmpty = true) :
    (c, e.2) ∈ buildSelections args baseCols excl := by
  have hkeysnd : (args.entries.map Prod.fst).Nodup :=
    List.Nodup.of_map strLower hkeys
  have hgl : args.getlist e.1 = e.2 := getlist_of_mem args e he hkeysnd
  have hbnd : baseCols.Nodup := List.Nodup.of_map strLower hbase
  have hkeymap : ∀ p ∈ args.entries,
      strLower p.1 ∈ args.keys.map strLower := by
    intro p hp
    exact List.mem_map_of_mem strLower
      (List.mem_map_of_mem Prod.fst hp)
  unfold buildSelections
  rw [loop1_eq args excl baseCols [] hbnd
    (by intro e2 h2; cases h2), List.nil_append]
  have hS1keys : ∀ cv ∈ baseCols.filterMap (pickEntry args excl),
      cv.1 ∈ baseCols := by
    intro cv hcv
    obtain ⟨c2, hc2, hpe⟩ := List.mem_filterMap.mp hcv
    obtain ⟨_, _, hcv2⟩ := pickEntry_some hpe
    rw [hcv2]
    exact hc2
  by_cases h1 : e.1 = c
  · refine foldl_step2_preserves args baseCols excl args.keys _ c e.2
      ?_ ?_
    · refine List.mem_filterMap.mpr ⟨c, hc, ?_⟩
      have hpick : pick1 args c = e.2 := by
        unfold pick1
        rw [← h1, hgl, if_neg hne]
      unfold pickEntry
      rw [if_neg hcx, hpick, if_neg hne]
    · intro k hk hr
      unfold realColOf at hr
      have hd := List.find?_some hr
      have hpk : strLower c = strLower k := of_decide_eq_true hd
      have hke : k = e.1 :=
        List.inj_on_of_nodup_map hkeys hk
          (List.mem_map_of_mem Prod.fst he)
          (by rw [← hpk, ← hlc])
      rw [hke, hgl]
  · by_cases h2 : e.1 = strLower c
    · refine foldl_step2_preserves args baseCols excl args.keys _ c e.2
        ?_ ?_
      · refine List.mem_filterMap.mpr ⟨c, hc, ?_⟩
        have hglc : args.getlist c = [] := by
          by_cases h4 : (args.getlist c).isEmpty
          · cases hlc2 : args.getlist c with
            | nil => rfl
            | cons x xs => rw [hlc2] at h4; cases h4
          · exfalso
            obtain ⟨e2, he2, hek2, _⟩ :=
              getlist_nonempty_mem args c h4
            have : e2 = e :=
              List.inj_on_of_nodup_map
                (by rw [show args.entries.map (fun p => strLower p.1)
                    = (args.entries.map Prod.fst).map strLower from by
                      rw [List.map_map]; rfl]; exact hkeys)
                he2 he (by rw [hek2, ← hlc])
            exact h1 (by rw [← this, hek2])
        have hpick : pick1 args c = e.2 := by
          unfold pick1
          rw [hglc]
          show args.getlist (strLower c) = e.2
          rw [← h2, hgl]
        unfold pickEntry
        rw [if_neg hcx, hpick, if_neg hne]
      · intro k hk hr
        unfold realColOf at hr
        have hd := List.find?_some hr
        have hpk : strLower c = strLower k := of_decide_eq_true hd
        have hke : k = e.1 :=
          List.inj_on_of_nodup_map hkeys hk
            (List.mem_map_of_mem Prod.fst he)
            (by rw [← hpk, ← hlc])
        rw [hke, hgl]
    · have hk0base : e.1 ∉ baseCols := fun hmem =>
        h1 (List.inj_on_of_nodup_map hbase hmem hc hlc)
      have hreal : realColOf baseCols (strLower e.1) = some c := by
        unfold realColOf
        refine find?_eq_some_of_unique (List.mem_reverse.mpr hc)
          (decide_eq_true hlc.symm) ?_
        intro b hb hpb
        exact List.inj_on_of_nodup_map hbase
          (List.mem_reverse.mp hb) hc
          (by rw [of_decide_eq_true hpb, hlc])
      exact foldl_step2_complete args baseCols excl args.keys _ e.1 c
        e.2 hkeys (List.mem_map_of_mem Prod.fst he) hreal hcx hgl hne
        hS1keys hk0base

theorem buildSelections_mem_iff (args : Args)
    (baseCols excl : List String)
    (hbase : (baseCols.map strLower).Nodup)
    (hkeys : (args.keys.map strLower).Nodup)
    (c : String) (vs : List String) :
    (c, vs) ∈ buildSelections args baseCols excl
      ↔ c ∈ baseCols ∧ c ∉ excl
        ∧ ∃ e ∈ args.entries, strLower e.1 = strLower c
            ∧ ¬ e.2.isEmpty = true ∧ vs = e.2 := by
  constructor
  · intro h
    exact buildSelections_sound args baseCols excl (c, vs) h
  · rintro ⟨hc, hcx, e, he, hlc, hne, rfl⟩
    exact buildSelections_complete args baseCols excl hbase hkeys c e
      hc hcx he hlc hne

theorem zip_exists_rel {α : Type} (R : α → α → Prop) (l1 l2 : List α)
    (hlen : l1.length = l2.length)
    (hrel : ∀ p ∈ l1.zip l2, R p.1 p.2) :
    ∀ e ∈ l1, ∃ e2 ∈ l2, R e e2 := by
  induction l1 generalizing l2 with
  | nil => intro e he; cases he
  | cons a as ih =>
      cases l2 with
      | nil => cases hlen
      | cons b bs =>
          intro e he
          rcases List.mem_cons.mp he with h | h
          · exact ⟨b, List.mem_cons_self b bs,
              h ▸ hrel (a, b) (by rw [List.zip_cons_cons]; exact List.mem_cons_self _ _)⟩
          · obtain ⟨e2, he2, hr⟩ := ih bs
              (by simpa using hlen)
              (fun p hp => hrel p (by rw [List.zip_cons_cons]; exact List.mem_cons_of_mem _ hp)) e h
            exact ⟨e2, List.mem_cons_of_mem b he2, hr⟩

theorem zip_exists_rel_rev {α : Type} (R : α → α → Prop) (l1 l2 : List α)
    (hlen : l1.length = l2.length)
    (hrel : ∀ p ∈ l1.zip l2, R p.1 p.2) :
    ∀ e2 ∈ l2, ∃ e ∈ l1, R e e2 := by
  induction l1 generalizing l2 with
  | nil =>
      cases l2 with
      | nil => intro e2 he2; cases he2
      | cons b bs => cases hlen
  | cons a as ih =>
      cases l2 with
      | nil => intro e2 he2; cases he2
      | cons b bs =>
          intro e2 he2
          rcases List.mem_cons.mp he2 with h | h
          · exact ⟨a, List.mem_cons_self a as,
              h ▸ hrel (a, b) (by rw [List.zip_cons_cons]; exact List.mem_cons_self _ _)⟩
          · obtain ⟨e, he, hr⟩ := ih bs
              (by simpa using hlen)
              (fun p hp => hrel p (by rw [List.zip_cons_cons]; exact List.mem_cons_of_mem _ hp)) e2 h
            exact ⟨e, List.mem_cons_of_mem a he, hr⟩

theorem keys_strLower_eq (m1 m2 : Args) (baseCols : List String)
    (hlen : m1.entries.length = m2.entries.length)
    (hrel : ∀ p ∈ m1.entries.zip m2.entries, C7Rel baseCols p.1 p.2) :
    m2.keys.map strLower = m1.keys.map strLower := by
  unfold Args.keys
  rw [List.map_map, List.map_map]
  revert hlen hrel
  generalize m1.entries = l1
  generalize m2.entries = l2
  intro hlen hrel
  induction l1 generalizing l2 with
  | nil =>
      cases l2 with
      | nil => rfl
      | cons b bs => cases hlen
  | cons a as ih =>
      cases l2 with
      | nil => cases hlen
      | cons b bs =>
          have hr := hrel (a, b)
            (by rw [List.zip_cons_cons]; exact List.mem_cons_self _ _)
          rw [List.map_cons, List.map_cons,
            ih bs (by simpa using hlen)
              (fun p hp => hrel p (by rw [List.zip_cons_cons]; exact List.mem_cons_of_mem _ hp))]
          show (strLower b.1) :: _ = (strLower a.1) :: _
          rw [hr.1]

theorem find?_key_cons (e : String × List String)
    (l : List (String × List String)) (k : String) :
    List.find? (fun x => x.1 = k) (e :: l)
      = if e.1 = k then some e
        else List.find? (fun x => x.1 = k) l := by
  by_cases h : e.1 = k
  · rw [if_pos h]
    exact List.find?_cons_of_pos _ (decide_eq_true h)
  · rw [if_neg h]
    exact List.find?_cons_of_neg _ (by simpa using h)

theorem getlist_rel_special (m1 m2 : Args) (baseCols : List String)
    (hlen : m1.entries.length = m2.entries.length)
    (hrel : ∀ p ∈ m1.entries.zip m2.entries, C7Rel baseCols p.1 p.2)
    (k : String) (hk : k ∈ specialKeys) (hkl : strLower k = k) :
    m1.getlist k = m2.getlist k := by
  unfold Args.getlist
  suffices h : m1.entries.find? (fun e => e.1 = k)
      = m2.entries.find? (fun e => e.1 = k) by rw [h]
  revert hlen hrel
  generalize m1.entries = l1
  generalize m2.entries = l2
  intro hlen hrel
  induction l1 generalizing l2 with
  | nil => cases l2 with
    | nil => rfl
    | cons b bs => cases hlen
  | cons a as ih =>
      cases l2 with
      | nil => cases hlen
      | cons b bs =>
          have hr := hrel (a, b)
            (by rw [List.zip_cons_cons]; exact List.mem_cons_self _ _)
          have ihr := ih bs (by simpa using hlen)
            (fun p hp => hrel p (by rw [List.zip_cons_cons]; exact List.mem_cons_of_mem _ hp))
          rw [find?_key_cons, find?_key_cons]
          rcases hr.2.2 with heq | ⟨_, hns⟩
          · by_cases hak : a.1 = k
            · rw [if_pos hak, if_pos (heq ▸ hak)]
              have hb : b = a := Prod.ext heq.symm hr.2.1
              rw [hb]
            · rw [if_neg hak,
                if_neg (fun hbk => hak (heq ▸ hbk)), ihr]
          · have hak : ¬ a.1 = k := by
              intro hak
              exact hns (by rw [hak, hkl]; exact hk)
            have hbk : ¬ b.1 = k := by
              intro hbk
              exact hns (by rw [← hr.1, hbk, hkl]; exact hk)
            rw [if_neg hak, if_neg hbk, ihr]

theorem bool_eq_of_iff {a b : Bool} (h : a = true ↔ b = true) :
    a = b := by
  cases a <;> cases b <;> simp_all

theorem apply_congr_mem (fp1 fp2 : FilterParams)
    (hs : fp1.start = fp2.start) (he : fp1.end_ = fp2.end_)
    (hsel : ∀ cv, cv ∈ fp1.selections ↔ cv ∈ fp2.selections)
    (t : Table) (dateCol : String) :
    fp1.apply t dateCol = fp2.apply t dateCol := by
  have hmem : ∀ cv, cv ∈ normalizeSelections fp1.selections
      ↔ cv ∈ normalizeSelections fp2.selections := by
    intro cv
    unfold normalizeSelections
    constructor <;> intro hm <;>
      obtain ⟨a, ha, rfl⟩ := List.mem_map.mp hm <;>
      have ha2 := List.mem_filter.mp ha
    · exact List.mem_map.mpr ⟨a, List.mem_filter.mpr
        ⟨(hsel a).mp ha2.1, ha2.2⟩, rfl⟩
    · exact List.mem_map.mpr ⟨a, List.mem_filter.mpr
        ⟨(hsel a).mpr ha2.1, ha2.2⟩, rfl⟩
  rw [apply_eq_filter, apply_eq_filter]
  unfold Table.filterRows
  refine congrArg (Table.mk t.header) (List.filter_congr ?_)
  intro r _
  have hdp : datePred fp1 t dateCol r = datePred fp2 t dateCol r := by
    unfold datePred
    rw [hs, he]
  rw [hdp]
  refine congrArg₂ (· && ·) ?_ rfl
  refine bool_eq_of_iff ?_
  rw [List.all_eq_true, List.all_eq_true]
  constructor <;> intro h cw hcw
  · exact h cw ((hmem cw).mpr hcw)
  · exact h cw ((hmem cw).mp hcw)

/-- C7 (amended): case-insensitive column resolution holds when the
schema's column names are pairwise case-insensitively distinct and the
request's keys are pairwise case-insensitively distinct.  For two raw
request mappings whose entries agree pointwise up to letter case of the
filter keys (identical values; non-filter keys identical), `build_params`
resolves the keys to the same real columns — the constructed selections
are equal as sets — and applying the resulting filters to any dataset
yields identical results. -/
theorem c7_case_insensitive_resolution (m1 m2 : Args)
    (baseCols excl : List String) (t : Table) (dateCol : String)
    (hbase : (baseCols.map strLower).Nodup)
    (hkeys : (m1.keys.map strLower).Nodup)
    (hlen : m1.entries.length = m2.entries.length)
    (hrel : ∀ p ∈ m1.entries.zip m2.entries, C7Rel baseCols p.1 p.2) :
    (∀ cv, cv ∈ (build_params m1 baseCols excl).selections
        ↔ cv ∈ (build_params m2 baseCols excl).selections)
      ∧ (build_params m1 baseCols excl).apply t dateCol
        = (build_params m2 baseCols excl).apply t dateCol := by
  have hkeys2 : (m2.keys.map strLower).Nodup := by
    rw [keys_strLower_eq m1 m2 baseCols hlen hrel]
    exact hkeys
  have hselmem : ∀ cv, cv ∈ buildSelections m1 baseCols excl
      ↔ cv ∈ buildSelections m2 baseCols excl := by
    intro cv
    cases cv with
    | mk c vs =>
        rw [buildSelections_mem_iff m1 baseCols excl hbase hkeys c vs,
          buildSelections_mem_iff m2 baseCols excl hbase hkeys2 c vs]
        constructor
        · rintro ⟨hc, hcx, e, he, hlc, hne, rfl⟩
          obtain ⟨e2, he2, hr⟩ := zip_exists_rel _ _ _ hlen hrel e he
          exact ⟨hc, hcx, e2, he2, by rw [hr.1, hlc],
            by rw [hr.2.1]; exact hne, hr.2.1.symm⟩
        · rintro ⟨hc, hcx, e2, he2, hlc, hne, rfl⟩
          obtain ⟨e, he, hr⟩ :=
            zip_exists_rel_rev _ _ _ hlen hrel e2 he2
          exact ⟨hc, hcx, e, he, by rw [← hr.1]; exact hlc,
            by rw [← hr.2.1]; exact hne, hr.2.1⟩
  have hget : ∀ k, k ∈ specialKeys → strLower k = k →
      m1.get k = m2.get k := by
    intro k hk hkl
    unfold Args.get
    rw [getlist_rel_special m1 m2 baseCols hlen hrel k hk hkl]
  have hs : (build_params m1 baseCols excl).start
      = (build_params m2 baseCols excl).start := by
    show _parse_date ((m1.get "start_date").getD "")
      = _parse_date ((m2.get "start_date").getD "")
    rw [hget "start_date" (by decide) rfl]
  have he : (build_params m1 baseCols excl).end_
      = (build_params m2 baseCols excl).end_ := by
    show _parse_date ((m1.get "end_date").getD "")
      = _parse_date ((m2.get "end_date").getD "")
    rw [hget "end_date" (by decide) rfl]
  exact ⟨fun cv => hselmem cv,
    apply_congr_mem _ _ hs he (fun cv => hselmem cv) t dateCol⟩

/-- C7 as stated is false: over a dataset with the case-colliding columns
"Loc" and "loc", the mappings {"Loc": ["x"]} and {"loc": ["x"]} — whose
single filter key differs only in letter case, with identical values —
produce filters that select different row sets on the same dataset. -/
theorem c7_counterexample :
    ((build_params ⟨[("Loc", ["x"])]⟩ ["Loc", "loc"] []).apply
        ⟨[("Loc", Dtype.obj), ("loc", Dtype.obj)],
         [[Cell.s "x", Cell.s "y"]]⟩ "chargedate").rows
      = [[Cell.s "x", Cell.s "y"]]
    ∧ ((build_params ⟨[("loc", ["x"])]⟩ ["Loc", "loc"] []).apply
        ⟨[("Loc", Dtype.obj), ("loc", Dtype.obj)],
         [[Cell.s "x", Cell.s "y"]]⟩ "chargedate").rows = [] := by
  constructor <;> rfl

/-- Witness instantiating `c7_case_insensitive_resolution`: the mappings
{"MeterID": ["5"]} and {"meterid": ["5"]} filter a concrete dataset
identically. -/
theorem c7_case_insensitive_resolution_witness :
    (build_params ⟨[("MeterID", ["5"])]⟩ ["MeterID", "loc"] []).apply
        ⟨[("MeterID", Dtype.obj), ("loc", Dtype.obj)],
         [[Cell.s "5", Cell.s "A"], [Cell.s "7", Cell.s "B"]]⟩
        "chargedate"
      = (build_params ⟨[("meterid", ["5"])]⟩ ["MeterID", "loc"] []).apply
        ⟨[("MeterID", Dtype.obj), ("loc", Dtype.obj)],
         [[Cell.s "5", Cell.s "A"], [Cell.s "7", Cell.s "B"]]⟩
        "chargedate" :=
  (c7_case_insensitive_resolution ⟨[("MeterID", ["5"])]⟩
    ⟨[("meterid", ["5"])]⟩ ["MeterID", "loc"] [] _ "chargedate"
    (by decide) (by decide) rfl (by decide)).2

end Volta
